import Mathlib

/-!
Shallow embedding of the DOM utility layer of this repository
(`src/unnamed/part_000`, the `dom.js` utilities of the vendored Splide
carousel) and of its prev/next Arrows component
(`src/splide/src/js/components/arrows/index.js`).

Modelling conventions:
* The browser document is a store (`Dom`) of nodes indexed by `Nat` ids; a
  node carries its tag, text content (for text nodes, tag `"#text"`),
  attribute list, class list, inline styles, children ids and parent id.
* A JavaScript element argument that may be `null`/`undefined` is an
  `Option Nat`.
* Operations that can throw a DOM/JS exception (for example
  `null.removeChild`, `DOMTokenList.add` on a token containing spaces)
  return `Except String _`; guarded operations that cannot throw stay total.
-/

set_option maxHeartbeats 1000000

namespace SplideModel

/-- A JavaScript primitive attribute/style value (string, number, boolean or
null), with JS truthiness and JS string coercion. -/
inductive JsVal where
  | str (s : String)
  | num (n : Int)
  | bool (b : Bool)
  | null
deriving Repr, DecidableEq

def JsVal.truthy : JsVal → Bool
  | .str s => s ≠ ""
  | .num n => n ≠ 0
  | .bool b => b
  | .null => false

def JsVal.toStr : JsVal → String
  | .str s => s
  | .num n => toString n
  | .bool b => if b then "true" else "false"
  | .null => "null"

/-- An argument that is either a single value or an array of values, for the
helpers that accept both (`remove`, `addClass`, `removeClass`,
`removeAttribute`). -/
inductive JsArg (α : Type) where
  | single (a : α)
  | arr (l : List α)
deriving Repr, DecidableEq

/-- Modelled from the spec: `toArray` (imported from `./utils`, which is not
under `src/`) — the spec says these helpers "accept a single element or an
array" / "a single class name or array of names", so a non-array argument is
wrapped into a one-element array and an array is passed through. -/
def toArray {α : Type} : JsArg α → List α
  | .single a => [a]
  | .arr l => l

/-- A DOM node: an element, or a text node (tag `"#text"`, content in
`text`). -/
structure Node where
  tag : String
  text : String := ""
  attrs : List (String × String) := []
  classes : List String := []
  styles : List (String × String) := []
  children : List Nat := []
  parent : Option Nat := none
deriving Repr, DecidableEq

/-- The document: an association list of live nodes plus a fresh-id counter. -/
structure Dom where
  nodes : List (Nat × Node)
  fresh : Nat
deriving Repr, DecidableEq

/-- Lookup in a node association list. -/
def getL : List (Nat × Node) → Nat → Option Node
  | [], _ => none
  | (a, m) :: rest, i => if a = i then some m else getL rest i

/-- In-place update of a node association list (no-op on an absent key). -/
def updL : List (Nat × Node) → Nat → Node → List (Nat × Node)
  | [], _, _ => []
  | (a, m) :: rest, i, n =>
    if a = i then (i, n) :: updL rest i n else (a, m) :: updL rest i n

def Dom.get (d : Dom) (i : Nat) : Option Node := getL d.nodes i

def Dom.upd (d : Dom) (i : Nat) (n : Node) : Dom :=
  ⟨updL d.nodes i n, d.fresh⟩

def Dom.modify (d : Dom) (i : Nat) (f : Node → Node) : Dom :=
  match d.get i with
  | some n => d.upd i (f n)
  | none => d

/-- Allocate a brand new node under the fresh id. -/
def Dom.alloc (d : Dom) (n : Node) : Nat × Dom :=
  (d.fresh, ⟨(d.fresh, n) :: d.nodes, d.fresh + 1⟩)

/-! ### Tree mutation primitives (browser `Node` API on the store) -/

/-- `parent.removeChild(child)` on a consistent tree: drop `c` from `p`'s
child list and clear `c`'s parent pointer. -/
def Dom.detach (d : Dom) (p c : Nat) : Dom :=
  (d.modify p (fun n => { n with children := n.children.filter (fun x => x != c) })).modify c
    (fun n => { n with parent := none })

/-- Detach a node from its current parent, if any (the implicit move step of
`appendChild`/`insertBefore`). -/
def Dom.pluck (d : Dom) (c : Nat) : Dom :=
  match d.get c with
  | some n =>
    match n.parent with
    | some p => d.detach p c
    | none => d
  | none => d

/-- Insert `n` immediately before the first occurrence of `ref` (the list part
of `insertBefore`); the list is unchanged when `ref` is absent. -/
def insertBeforeL (l : List Nat) (ref n : Nat) : List Nat :=
  match l with
  | [] => []
  | x :: xs => if x = ref then n :: x :: xs else x :: insertBeforeL xs ref n

/-- `parent.insertBefore(e, r)`: move `e` in front of `r` among `p`'s
children; throws `NotFoundError` when `r` is not a child of `p`. -/
def insertBefore (p e r : Nat) (d : Dom) : Except String Dom :=
  match d.get e with
  | none => .error "dangling node reference"
  | some _ =>
    match d.get p with
    | none => .error "dangling node reference"
    | some pn =>
      if r ∈ pn.children then
        .ok (((d.pluck e).modify p
            (fun n => { n with children := insertBeforeL n.children r e })).modify e
          (fun n => { n with parent := some p }))
      else .error "NotFoundError"

/-! ### The DOM helper layer (`dom.js`, `src/unnamed/part_000`) -/

/-- A simple CSS selector, matched against one node: `.c` by class, `#i` by
id attribute, otherwise by tag name. Models the browser's `querySelector`
matching for the selector subset this code uses. -/
def matchesSel (d : Dom) (i : Nat) (sel : String) : Bool :=
  match d.get i with
  | none => false
  | some n =>
    if n.tag == "#text" then false
    else if sel.startsWith "." then n.classes.contains (sel.drop 1)
    else if sel.startsWith "#" then
      ((n.attrs.find? (fun p => p.1 == "id")).map Prod.snd) == some (sel.drop 1)
    else n.tag == sel

/-- Depth-first search over descendants for `querySelector` (fuel-bounded
recursion over the child lists). -/
def querySelAux (d : Dom) (sel : String) : Nat → List Nat → Option Nat
  | 0, _ => none
  | _ + 1, [] => none
  | fuel + 1, c :: rest =>
    if matchesSel d c sel then some c
    else
      match querySelAux d sel fuel (match d.get c with
        | some n => n.children
        | none => []) with
      | some r => some r
      | none => querySelAux d sel fuel rest

/-- Modelled browser API: `elm.querySelector(sel)` — first matching
descendant in document order. -/
def querySelector (d : Dom) (e : Nat) (sel : String) : Option Nat :=
  querySelAux d sel (d.nodes.length + 1)
    (match d.get e with
     | some n => n.children
     | none => [])

/-- `find( elm, selector )`: `elm && selector ?
elm.querySelector( selector.split( ' ' )[0] ) : null`. -/
def find (elm : Option Nat) (selector : String) (d : Dom) : Option Nat :=
  match elm with
  | some e =>
    if selector ≠ "" then querySelector d e (((selector.splitOn " ").headD ""))
    else none
  | none => none

/-- `hasClass( elm, className )`: `!! elm && elm.classList.contains( className )`. -/
def hasClass (elm : Option Nat) (className : String) (d : Dom) : Bool :=
  match elm with
  | some e =>
    match d.get e with
    | some n => n.classes.contains className
    | none => false
  | none => false

/-- Modelled from the spec: `values` (imported from `./object`, not under
`src/`) applied to an HTMLCollection of children is just the list of child
ids. -/
def values (l : List Nat) : List Nat := l

/-- `child( parent, className )`: first direct child whose class list has the
first space-delimited token of `className`, else null. -/
def child (parent : Option Nat) (className : String) (d : Dom) : Option Nat :=
  match parent with
  | some p =>
    match d.get p with
    | some pn =>
      ((values pn.children).filter
        (fun c => hasClass (some c) (((className.splitOn " ").headD "")) d)).head?
    | none => none
  | none => none

/-- Replace-or-append of a key/value pair, the behaviour of the DOM
`setAttribute` on the attribute list. -/
def setPair : List (String × String) → String → String → List (String × String)
  | [], k, v => [(k, v)]
  | (a, b) :: rest, k, v =>
    if a = k then (k, v) :: rest else (a, b) :: setPair rest k v

def getPair : List (String × String) → String → Option String
  | [], _ => none
  | (a, b) :: rest, k => if a = k then some b else getPair rest k

/-- Set a content attribute on a node. Setting the `class` attribute also
rewrites the node's class list, reflecting the browser's
attribute/classList sync (the classList → attribute direction is never
observed by this code and is not modelled). -/
def Node.setAttr (n : Node) (k v : String) : Node :=
  let n' : Node := { n with attrs := setPair n.attrs k v }
  if k == "class" then
    { n' with classes := (v.splitOn " ").filter (fun s => s ≠ "") }
  else n'

/-- Remove a content attribute from a node (clears the class list for
`class`, mirroring the sync above). -/
def Node.removeAttr (n : Node) (k : String) : Node :=
  let n' : Node := { n with attrs := n.attrs.filter (fun p => p.1 != k) }
  if k == "class" then { n' with classes := [] } else n'

/-- `setAttribute( elm, name, value )`: `if ( elm ) { elm.setAttribute( name,
value ) }` — note: the guard is on `elm` only; the value is string-coerced
and set whether or not it is truthy. -/
def setAttribute (elm : Option Nat) (name : String) (value : JsVal) (d : Dom) : Dom :=
  match elm with
  | some e => d.modify e (fun n => n.setAttr name value.toStr)
  | none => d

/-- `getAttribute( elm, name )`: `elm ? elm.getAttribute( name ) : null`. -/
def getAttribute (elm : Option Nat) (name : String) (d : Dom) : Option String :=
  match elm with
  | some e =>
    match d.get e with
    | some n => getPair n.attrs name
    | none => none
  | none => none

/-- `removeAttribute( elm, names )`: for each name of the (single or array)
argument, `elm.removeAttribute( name )`; guarded on `elm`. -/
def removeAttribute (elm : Option Nat) (names : JsArg String) (d : Dom) : Dom :=
  match elm with
  | some e => (toArray names).foldl (fun acc k => acc.modify e (fun n => n.removeAttr k)) d
  | none => d

/-- `applyStyle( elm, styles )`: for each pair, `elm.style[ prop ] = value ||
''` when `elm` is truthy. -/
def applyStyle (elm : Option Nat) (styles : List (String × JsVal)) (d : Dom) : Dom :=
  match elm with
  | some e =>
    styles.foldl
      (fun acc kv =>
        acc.modify e
          (fun n =>
            { n with styles := setPair n.styles kv.1 (if kv.2.truthy then kv.2.toStr else "") }))
      d
  | none => d

/-- A `DOMTokenList` token: non-empty and free of ASCII whitespace; `add` and
`remove` throw `SyntaxError`/`InvalidCharacterError` otherwise (WHATWG DOM
§7.1). -/
def tokenValid (s : String) : Bool :=
  s ≠ "" && !(s.toList.any fun c => c = ' ' || c = '\t' || c = '\n' || c = '\x0c' || c = '\r')

/-- The token-list effect of `classList.add`: append if absent. -/
def clsAdd (cs : List String) (t : String) : List String :=
  if cs.contains t then cs else cs ++ [t]

/-- `classList.add(t)`: validate the token, then append it if absent. -/
def classListAdd (cs : List String) (t : String) : Except String (List String) :=
  if tokenValid t then .ok (clsAdd cs t)
  else .error "InvalidCharacterError"

/-- `classList.remove(t)`: validate the token, then filter it out. -/
def classListRemove (cs : List String) (t : String) : Except String (List String) :=
  if tokenValid t then .ok (cs.filter (fun x => x != t))
  else .error "InvalidCharacterError"

/-- The `forEach` body of `addOrRemoveClasses`: for each name, `if ( name )
{ elm.classList[ remove ? 'remove' : 'add' ]( name ) }`; an exception thrown
by `classList` aborts the iteration. -/
def addOrRemoveGo (e : Nat) (remove : Bool) : List String → Dom → Except String Dom
  | [], d => .ok d
  | name :: rest, d =>
    if name ≠ "" then
      match d.get e with
      | none => .error "dangling node reference"
      | some n =>
        match (if remove then classListRemove n.classes name else classListAdd n.classes name) with
        | .error s => .error s
        | .ok cs => addOrRemoveGo e remove rest (d.upd e { n with classes := cs })
    else addOrRemoveGo e remove rest d

/-- `addOrRemoveClasses( elm, classes, remove )`. -/
def addOrRemoveClasses (elm : Option Nat) (classes : JsArg String) (remove : Bool)
    (d : Dom) : Except String Dom :=
  match elm with
  | some e => addOrRemoveGo e remove (toArray classes) d
  | none => .ok d

/-- `addClass( elm, classes )`. -/
def addClass (elm : Option Nat) (classes : JsArg String) (d : Dom) : Except String Dom :=
  addOrRemoveClasses elm classes false d

/-- `removeClass( elm, classes )`. -/
def removeClass (elm : Option Nat) (classes : JsArg String) (d : Dom) : Except String Dom :=
  addOrRemoveClasses elm classes true d

/-- One entry of `remove`'s `forEach`: `elm && elm.parentElement.removeChild(
elm )`. A null entry short-circuits at `elm &&`; a non-null entry whose
`parentElement` is null dereferences null and throws a `TypeError`. -/
def removeOne : Option Nat → Dom → Except String Dom
  | none, d => .ok d
  | some i, d =>
    match d.get i with
    | none => .error "dangling node reference"
    | some n =>
      match n.parent with
      | none => .error "TypeError: null parentElement"
      | some p => .ok (d.detach p i)

def removeList : List (Option Nat) → Dom → Except String Dom
  | [], d => .ok d
  | e :: rest, d =>
    match removeOne e d with
    | .error s => .error s
    | .ok d2 => removeList rest d2

/-- `remove( elms )`: `toArray( elms ).forEach( elm => { elm &&
elm.parentElement.removeChild( elm ) } )`. -/
def remove (elms : JsArg (Option Nat)) (d : Dom) : Except String Dom :=
  removeList (toArray elms) d

/-- `append( parent, child )`: `if ( parent ) { parent.appendChild( child )
}`. `appendChild` moves the child: it is detached from its old parent and
pushed at the end of `parent`'s child list. -/
def append (parent child : Option Nat) (d : Dom) : Except String Dom :=
  match parent with
  | none => .ok d
  | some p =>
    match child with
    | none => .error "TypeError: appendChild with null child"
    | some c =>
      match d.get c with
      | none => .error "dangling node reference"
      | some _ =>
        .ok (((d.pluck c).modify p (fun n => { n with children := n.children ++ [c] })).modify c
          (fun n => { n with parent := some p }))

/-- `before( elm, ref )`: `if ( elm && ref && ref.parentElement ) {
ref.parentElement.insertBefore( elm, ref ) }`. -/
def before (elm ref : Option Nat) (d : Dom) : Except String Dom :=
  match elm, ref with
  | some e, some r =>
    match d.get r with
    | none => .error "dangling node reference"
    | some rn =>
      match rn.parent with
      | none => .ok d
      | some p => insertBefore p e r d
  | _, _ => .ok d

/-- `firstElementChild`: first child that is an element (skips text nodes). -/
def firstElementChild (d : Dom) (i : Nat) : Option Nat :=
  match d.get i with
  | some n =>
    n.children.find? (fun c =>
      match d.get c with
      | some cn => cn.tag != "#text"
      | none => false)
  | none => none

/-- `firstChild`: first child node of any kind. -/
def firstChildOf (d : Dom) (i : Nat) : Option Nat :=
  match d.get i with
  | some n => n.children.head?
  | none => none

/-- Modelled from the spec: `each` (imported from `./object`, not under
`src/`) — the spec says `create` "applies each key/value of `attrs` as an
attribute", so `each` iterates over all key/value pairs in order, with no
filtering. -/
def each (attrs : List (String × JsVal)) (i : Nat) (d : Dom) : Dom :=
  attrs.foldl (fun acc kv => setAttribute (some i) kv.1 kv.2 acc) d

/-- `create( tag, attrs )`: `document.createElement( tag )` followed by
`each( attrs, ( value, key ) => setAttribute( elm, key, value ) )`. -/
def create (tag : String) (attrs : List (String × JsVal)) (d : Dom) : Nat × Dom :=
  let (i, d2) := d.alloc { tag := tag }
  (i, each attrs i d2)

/-! ### HTML fragment parsing (the browser side of `innerHTML`)

`domify` assigns `div.innerHTML = html`; the parsing is done by the browser,
not by this repository's code. It is modelled here for the fragment subset
this code produces: text runs, elements with double-quoted attributes,
self-closing tags, and tags implicitly closed at the end of input (as the
HTML parser does). Whitespace-only character runs become text nodes, as in
the WHATWG fragment parsing algorithm. -/

inductive PNode where
  | text (s : String)
  | elem (tag : String) (attrs : List (String × String)) (children : List PNode)
deriving Repr

def isSpaceC (c : Char) : Bool :=
  c = ' ' || c = '\t' || c = '\n' || c = '\x0c' || c = '\r'

def isNameC (c : Char) : Bool := c.isAlpha || c.isDigit || c = '-'

def readText (cs : List Char) : String × List Char :=
  (String.mk (cs.takeWhile (fun c => c ≠ '<')), cs.dropWhile (fun c => c ≠ '<'))

def readTagName (cs : List Char) : String × List Char :=
  (String.mk (cs.takeWhile isNameC), cs.dropWhile isNameC)

/-- Read the attribute list of an open tag up to (and past) the closing `>`;
the boolean reports a self-closing `/>`. -/
def readAttrs : Nat → List Char → List (String × String) × Bool × List Char
  | 0, cs => ([], false, cs)
  | fuel + 1, cs =>
    match cs.dropWhile isSpaceC with
    | [] => ([], false, [])
    | '>' :: rest => ([], false, rest)
    | '/' :: '>' :: rest => ([], true, rest)
    | cs2 =>
      let name := String.mk (cs2.takeWhile fun c =>
        !(isSpaceC c || c = '=' || c = '>' || c = '/'))
      let cs3 := cs2.dropWhile fun c => !(isSpaceC c || c = '=' || c = '>' || c = '/')
      match cs3 with
      | '=' :: '"' :: cs4 =>
        let v := String.mk (cs4.takeWhile fun c => c ≠ '"')
        let cs5 := (cs4.dropWhile fun c => c ≠ '"').drop 1
        let (as2, sc, cs6) := readAttrs fuel cs5
        ((name, v) :: as2, sc, cs6)
      | _ =>
        let (as2, sc, cs6) := readAttrs fuel cs3
        (if name ≠ "" then (name, "") :: as2 else as2, sc, cs6)

/-- Skip a closing tag `</...>` if one is next. -/
def skipClose (cs : List Char) : List Char :=
  match cs with
  | '<' :: '/' :: rest => (rest.dropWhile (fun c => c ≠ '>')).drop 1
  | _ => cs

/-- Fuel-bounded HTML fragment parser; stops in front of a closing tag so
that the enclosing element's parse can consume it, and closes still-open
elements at the end of input. -/
def parseNodes : Nat → List Char → List PNode × List Char
  | 0, cs => ([], cs)
  | _ + 1, [] => ([], [])
  | _ + 1, '<' :: '/' :: cs => ([], '<' :: '/' :: cs)
  | fuel + 1, '<' :: c :: cs =>
    if c.isAlpha then
      let (tag, cs1) := readTagName (c :: cs)
      let (attrs, selfClosing, cs2) := readAttrs (fuel + 1) cs1
      if selfClosing then
        let (rest, cs3) := parseNodes fuel cs2
        (.elem tag attrs [] :: rest, cs3)
      else
        let (children, cs3) := parseNodes fuel cs2
        let cs4 := skipClose cs3
        let (rest, cs5) := parseNodes fuel cs4
        (.elem tag attrs children :: rest, cs5)
    else
      let (t, cs1) := readText (c :: cs)
      let (rest, cs2) := parseNodes fuel cs1
      (.text ("<" ++ t) :: rest, cs2)
  | _ + 1, ['<'] => ([PNode.text "<"], [])
  | fuel + 1, cs =>
    let (t, cs1) := readText cs
    let (rest, cs2) := parseNodes fuel cs1
    (.text t :: rest, cs2)

def parseHTML (html : String) : List PNode :=
  (parseNodes (html.length + 2) html.toList).1

/-- Materialise a list of parsed nodes as fresh children of `parent` in the
store, returning their ids in order (fuel-bounded structural recursion over
the nested parse tree; `matL` below supplies adequate fuel). -/
def matN : Nat → Option Nat → List PNode → Dom → List Nat × Dom
  | 0, _, _, d => ([], d)
  | _ + 1, _, [], d => ([], d)
  | fuel + 1, parent, .text s :: rest, d =>
    let (i, d2) := d.alloc { tag := "#text", text := s, parent := parent }
    let (ids, d3) := matN fuel parent rest d2
    (i :: ids, d3)
  | fuel + 1, parent, .elem tag attrs children :: rest, d =>
    let (i, d2) := d.alloc { tag := tag, parent := parent }
    let d3 := attrs.foldl (fun acc kv => acc.modify i (fun n => n.setAttr kv.1 kv.2)) d2
    let (ids, d4) := matN fuel (some i) children d3
    let d5 := d4.modify i (fun n => { n with children := ids })
    let (ids2, d6) := matN fuel parent rest d5
    (i :: ids2, d6)

/-- `div.innerHTML = html` on a node with no prior children; the fragment
holds at most `html.length` nodes, so `html.length + 2` is enough fuel for
the materialisation. -/
def setInnerHTML (d : Dom) (i : Nat) (html : String) : Dom :=
  let (ids, d2) := matN (html.length + 2) (some i) (parseHTML html) d
  d2.modify i (fun n => { n with children := ids })

/-- `domify( html )`: `const div = create( 'div', {} ); div.innerHTML = html;
return div.firstChild;`. -/
def domify (html : String) (d : Dom) : Option Nat × Dom :=
  let (div, d2) := create "div" [] d
  let d3 := setInnerHTML d2 div html
  (firstChildOf d3 div, d3)

/-! ### The Arrows component (`src/splide/src/js/components/arrows/index.js`) -/

/-- Modelled from the spec: the constants module `./path` is not under
`src/`; the spec describes "an XML namespace URI, an icon path datum, and a
square icon size". -/
def XML_NAME_SPACE : String := "http://www.w3.org/2000/svg"

/-- Modelled from the spec: default square icon size from `./path`. -/
def SIZE : Nat := 40

/-- Modelled from the spec: default icon path datum from `./path`. -/
def PATH : String := "m15.5 0.932-4.3 4.38 14.5 14.6-14.5 14.5 4.3 4.4 14.6-14.6 4.4-4.3z"

/-- The `arrows` option: `true`/`false`, or the string `'slider'`. -/
inductive ArrowsOption where
  | bool (b : Bool)
  | slider
deriving Repr, DecidableEq

/-- JS truthiness of the `arrows` option (`'slider'` is a non-empty string). -/
def ArrowsOption.truthy : ArrowsOption → Bool
  | .bool b => b
  | .slider => true

/-- The class-name map consumed from `Splide.classes`. -/
structure ArrowClasses where
  arrows : String
  arrow : String
  prev : String
  next : String
deriving Repr, DecidableEq

/-- The options consumed from `Splide.options`. -/
structure Options where
  arrows : ArrowsOption
  perPage : Nat
  perMove : Nat
  arrowPath : String
deriving Repr, DecidableEq

/-- The host (`Splide`) context the component reads: root element id, class
map, options and slide count. -/
structure SplideCfg where
  root : Nat
  classes : ArrowClasses
  options : Options
  length : Nat
deriving Repr, DecidableEq

/-- The `Components.Elements` collaborator: pre-existing arrow elements and
the optional slider sub-region. -/
structure ElementsC where
  arrowsPrev : Option Nat
  arrowsNext : Option Nat
  slider : Option Nat
deriving Repr, DecidableEq

/-- The `Components.Controller` collaborator: previous/next target indices
(negative means "no such target"). -/
structure Controller where
  prevIndex : Int
  nextIndex : Int
deriving Repr, DecidableEq

/-- The component's closure state after `mount`: the two arrow references,
the `created` flag, and whether `bind()` ran. -/
structure ArrowsState where
  prev : Option Nat
  next : Option Nat
  created : Bool
  bound : Bool
deriving Repr, DecidableEq

/-- A `Splide.emit` record: event name plus the two element arguments and the
two index arguments of the `…:updated` notification. -/
structure EmitRecord where
  event : String
  arg1 : Option Nat
  arg2 : Option Nat
  idx1 : Int
  idx2 : Int
deriving Repr, DecidableEq

/-- The arrow template string built by `createArrow` (verbatim from the
source, including the tab separators inside the `svg` tag). -/
def arrowTemplate (cfg : SplideCfg) (isPrev : Bool) : String :=
  "<button class=\"" ++ cfg.classes.arrow ++ " "
    ++ (if isPrev then cfg.classes.prev else cfg.classes.next) ++ "\">"
    ++ "<svg xmlns=\"" ++ XML_NAME_SPACE ++ "\"\tviewBox=\"0 0 "
    ++ toString SIZE ++ " " ++ toString SIZE ++ "\"\twidth=\"" ++ toString SIZE
    ++ "\"\theight=\"" ++ toString SIZE ++ "\">"
    ++ "<path d=\"" ++ (if cfg.options.arrowPath ≠ "" then cfg.options.arrowPath else PATH)
    ++ "\" />"

/-- `createArrow( prev )`: the source is `domify( template )`. For class
names and path data free of markup metacharacters (`<`, `>`, `"`) and of
spaces inside a single class name, the fragment parser yields exactly the
tree built here: a `button` with the arrow class and the direction class,
containing an `svg` (xmlns/viewBox/width/height) containing a `path` (`d` =
`options.arrowPath || PATH`); this definition constructs that tree directly
at the node level so that it is analysable for symbolic class names.
`createArrow_template_agreement` below checks it against
`domify (arrowTemplate …)` on concrete input. -/
def createArrow (isPrev : Bool) (cfg : SplideCfg) (d : Dom) : Nat × Dom :=
  let dirCls := if isPrev then cfg.classes.prev else cfg.classes.next
  let (b, d1) := d.alloc
    { tag := "button"
      attrs := [("class", cfg.classes.arrow ++ " " ++ dirCls)]
      classes := [cfg.classes.arrow, dirCls] }
  let (s, d2) := d1.alloc
    { tag := "svg"
      attrs := [("xmlns", XML_NAME_SPACE),
                ("viewBox", "0 0 " ++ toString SIZE ++ " " ++ toString SIZE),
                ("width", toString SIZE), ("height", toString SIZE)]
      parent := some b }
  let (p, d3) := d2.alloc
    { tag := "path"
      attrs := [("d", if cfg.options.arrowPath ≠ "" then cfg.options.arrowPath else PATH)]
      parent := some s }
  let d4 := d3.modify b (fun n => { n with children := [s] })
  let d5 := d4.modify s (fun n => { n with children := [p] })
  (b, d5)

/-- The insertion parent chosen by `appendArrows`:
`Splide.options.arrows === 'slider' && slider ? slider : root`. -/
def appendTarget (cfg : SplideCfg) (els : ElementsC) : Nat :=
  match cfg.options.arrows, els.slider with
  | .slider, some s => s
  | _, _ => cfg.root

/-- `appendArrows()`: create the wrapper `div` with the arrows class, append
both arrows into it, and insert it before the chosen parent's first element
child. -/
def appendArrows (cfg : SplideCfg) (els : ElementsC) (prevId nextId : Nat)
    (d : Dom) : Except String Dom :=
  let (wrapper, d1) := create "div" [("class", JsVal.str cfg.classes.arrows)] d
  match append (some wrapper) (some prevId) d1 with
  | .error s => .error s
  | .ok d2 =>
    match append (some wrapper) (some nextId) d2 with
    | .error s => .error s
    | .ok d3 =>
      let parent := appendTarget cfg els
      before (some wrapper) (firstElementChild d3 parent) d3

/-- `mount()`: read the arrows from `Components.Elements`; if either is
missing and the arrows option is truthy, fabricate both, set `created`, and
run `appendArrows`; bind listeners when both references exist. -/
def mount (cfg : SplideCfg) (els : ElementsC) (d : Dom) :
    Except String (ArrowsState × Dom) :=
  let prev := els.arrowsPrev
  let next := els.arrowsNext
  if (prev.isNone || next.isNone) && cfg.options.arrows.truthy then
    let (p, d1) := createArrow true cfg d
    let (n, d2) := createArrow false cfg d1
    match appendArrows cfg els p n d2 with
    | .error s => .error s
    | .ok d3 => .ok ({ prev := some p, next := some n, created := true, bound := true }, d3)
  else
    .ok ({ prev := prev, next := next, created := false,
           bound := prev.isSome && next.isSome }, d)

/-- `onClick( prev )`: the navigation command handed to `Splide.go` — a
relative step of `perMove` when configured, else the semantic `<`/`>`
token. -/
def onClick (isPrev : Bool) (cfg : SplideCfg) : String :=
  if cfg.options.perMove ≠ 0 then
    (if isPrev then "-" else "+") ++ toString cfg.options.perMove
  else if isPrev then "<" else ">"

/-- `prev.disabled = b` on a button: the reflected `disabled` IDL attribute —
setting true installs the content attribute, setting false removes it. -/
def setDisabled (d : Dom) (i : Nat) (b : Bool) : Dom :=
  d.modify i (fun n => if b then n.setAttr "disabled" "" else n.removeAttr "disabled")

/-- The `disabled` property read back from a node. -/
def Node.disabledProp (n : Node) : Bool := (getPair n.attrs "disabled").isSome

/-- `updateDisabled()`: read `prevIndex`/`nextIndex` from the Controller,
compute `isEnough = Splide.length > Splide.options.perPage`, set both
`disabled` flags, and emit `` `${name}:updated` `` with both arrows and both
indices. `prev`/`next` are dereferenced without a guard. -/
def updateDisabled (name : String) (cfg : SplideCfg) (ctrl : Controller)
    (st : ArrowsState) (d : Dom) : Except String (Dom × EmitRecord) :=
  let isEnough := decide (cfg.length > cfg.options.perPage)
  match st.prev, st.next with
  | some p, some q =>
    match d.get p, d.get q with
    | some _, some _ =>
      let d1 := setDisabled d p (decide (ctrl.prevIndex < 0) || !isEnough)
      let d2 := setDisabled d1 q (decide (ctrl.nextIndex < 0) || !isEnough)
      .ok (d2, { event := name ++ ":updated", arg1 := st.prev, arg2 := st.next,
                 idx1 := ctrl.prevIndex, idx2 := ctrl.nextIndex })
    | _, _ => .error "dangling node reference"
  | _, _ => .error "TypeError: prev or next is undefined"

/-- `destroy()`: `[ prev, next ].forEach( elm => { removeAttribute( elm,
'disabled' ) } ); if ( created ) { remove( prev.parentElement ) }`. -/
def destroy (st : ArrowsState) (d : Dom) : Except String Dom :=
  let d1 := removeAttribute st.prev (.single "disabled") d
  let d2 := removeAttribute st.next (.single "disabled") d1
  if st.created then
    match st.prev with
    | none => .error "TypeError: prev is undefined"
    | some p =>
      match d2.get p with
      | none => .error "dangling node reference"
      | some n => remove (.single n.parent) d2
  else .ok d2

/-- A node is attached when it is live and has a parent. -/
def attachedB (d : Dom) (i : Nat) : Bool :=
  match d.get i with
  | some n => n.parent.isSome
  | none => false

/-- The value of the last binding of key `k` in an attribute-pair list (later
`setAttribute` calls overwrite earlier ones). -/
def lastVal : List (String × JsVal) → String → Option JsVal
  | [], _ => none
  | (a, v) :: rest, k =>
    match lastVal rest k with
    | some w => some w
    | none => if a = k then some v else none

/-! ### Concrete fixtures used by witnesses and counterexamples -/

/-- An empty document. -/
def fxEmpty : Dom := ⟨[], 0⟩

/-- A host configuration with `arrows: true`, `perPage` 1, no `perMove`, no
custom `arrowPath`, 3 slides, root id 0. -/
def fxCfg : SplideCfg :=
  ⟨0, ⟨"splide__arrows", "splide__arrow", "splide__arrow--prev", "splide__arrow--next"⟩,
   ⟨.bool true, 1, 0, ""⟩, 3⟩

/-- An Elements collaborator with no pre-existing markup and no slider. -/
def fxElsNone : ElementsC := ⟨none, none, none⟩

/-- A root (id 0) holding one element child (id 1). -/
def fxDomRootChild : Dom :=
  ⟨[(0, { tag := "div", children := [1] }), (1, { tag := "section", parent := some 0 })], 2⟩

/-- A root (id 0) with no children at all. -/
def fxDomRootEmpty : Dom := ⟨[(0, { tag := "div" })], 1⟩

/-- Two detached buttons (ids 1 and 2), as pre-existing arrow elements for
`updateDisabled`. -/
def fxDomButtons : Dom :=
  ⟨[(1, { tag := "button" }), (2, { tag := "button" })], 3⟩

/-- Component state referencing the two buttons, arrows discovered in markup
(`created` false), listeners bound. -/
def fxStButtons : ArrowsState := ⟨some 1, some 2, false, true⟩

/-- A lone element (id 5) with no parent. -/
def fxDomDetached : Dom := ⟨[(5, { tag := "div" })], 6⟩

/-- An element (id 1) attached under a parent (id 0). -/
def fxDomAttached : Dom :=
  ⟨[(0, { tag := "div", children := [1] }), (1, { tag := "span", parent := some 0 })], 2⟩

/-- A single plain element (id 0). -/
def fxDomSingle : Dom := ⟨[(0, { tag := "div" })], 1⟩

/-- A document with pre-existing arrow buttons (ids 1 and 2) attached under
the root (id 0). -/
def fxDomMarkup : Dom :=
  ⟨[(0, { tag := "div", children := [1, 2] }),
    (1, { tag := "button", attrs := [("disabled", "")], parent := some 0 }),
    (2, { tag := "button", attrs := [("disabled", "")], parent := some 0 })], 3⟩

/-- Elements collaborator exposing the two pre-existing buttons. -/
def fxElsMarkup : ElementsC := ⟨some 1, some 2, none⟩

/-! ### Supporting lemmas about `detach` and `remove` -/

/-! ### Lemmas about the node store -/

theorem getL_cons_self (a : Nat) (m : Node) (rest : List (Nat × Node)) :
    getL ((a, m) :: rest) a = some m := by
  simp [getL]

theorem getL_cons_ne (a j : Nat) (m : Node) (rest : List (Nat × Node)) (h : ¬ a = j) :
    getL ((a, m) :: rest) j = getL rest j := by
  simp only [getL]
  rw [if_neg h]

theorem updL_cons_self (a : Nat) (m n : Node) (rest : List (Nat × Node)) :
    updL ((a, m) :: rest) a n = (a, n) :: updL rest a n := by
  simp [updL]

theorem updL_cons_ne (a i : Nat) (m n : Node) (rest : List (Nat × Node)) (h : ¬ a = i) :
    updL ((a, m) :: rest) i n = (a, m) :: updL rest i n := by
  simp only [updL]
  rw [if_neg h]

theorem getL_updL (l : List (Nat × Node)) (i : Nat) (n : Node) (j : Nat) :
    getL (updL l i n) j = if j = i then (getL l i).map (fun _ => n) else getL l j := by
  induction l with
  | nil => by_cases h : j = i <;> simp [getL, updL, h]
  | cons p rest ih =>
    obtain ⟨a, m⟩ := p
    by_cases hai : a = i
    · subst hai
      rw [updL_cons_self]
      by_cases hji : j = a
      · subst hji
        rw [getL_cons_self, if_pos rfl, getL_cons_self]
        rfl
      · have h1 : ¬ a = j := fun h => hji h.symm
        rw [getL_cons_ne a j n (updL rest a n) h1, if_neg hji,
            getL_cons_ne a j m rest h1]
        rw [if_neg hji] at ih
        exact ih
    · rw [updL_cons_ne a i m n rest hai]
      by_cases hji : j = i
      · subst hji
        rw [getL_cons_ne a j m (updL rest j n) hai, if_pos rfl,
            getL_cons_ne a j m rest hai]
        rw [if_pos rfl] at ih
        exact ih
      · by_cases haj : a = j
        · subst haj
          rw [getL_cons_self, if_neg hji, getL_cons_self]
        · rw [getL_cons_ne a j m (updL rest i n) haj, if_neg hji,
              getL_cons_ne a j m rest haj]
          rw [if_neg hji] at ih
          exact ih

theorem Dom.get_upd (d : Dom) (i : Nat) (n : Node) (j : Nat) :
    (d.upd i n).get j = if j = i then (d.get i).map (fun _ => n) else d.get j :=
  getL_updL d.nodes i n j

theorem Dom.get_modify (d : Dom) (i : Nat) (f : Node → Node) (j : Nat) :
    (d.modify i f).get j = if j = i then (d.get i).map f else d.get j := by
  unfold Dom.modify
  cases h : d.get i with
  | none => by_cases hji : j = i <;> simp [hji, h]
  | some m =>
    rw [Dom.get_upd]
    by_cases hji : j = i <;> simp [hji, h]

theorem Dom.get_upd_self (d : Dom) (i : Nat) (m n : Node) (h : d.get i = some n) :
    (d.upd i m).get i = some m := by
  rw [Dom.get_upd, if_pos rfl, h]
  rfl

theorem Dom.get_modify_self (d : Dom) (i : Nat) (f : Node → Node) (m : Node)
    (h : d.get i = some m) : (d.modify i f).get i = some (f m) := by
  rw [Dom.get_modify, if_pos rfl, h, Option.map_some']

theorem Dom.get_modify_ne (d : Dom) (i : Nat) (f : Node → Node) (j : Nat)
    (h : j ≠ i) : (d.modify i f).get j = d.get j := by
  rw [Dom.get_modify, if_neg h]

theorem Dom.get_alloc (d : Dom) (n : Node) (j : Nat) :
    (d.alloc n).2.get j = if j = d.fresh then some n else d.get j := by
  by_cases h : j = d.fresh
  · subst h; simp [Dom.alloc, Dom.get, getL]
  · rw [if_neg h]
    exact getL_cons_ne _ _ _ _ (fun hc => h (Eq.symm hc))

theorem Dom.get_alloc_self (d : Dom) (n : Node) : (d.alloc n).2.get d.fresh = some n := by
  rw [Dom.get_alloc, if_pos rfl]

theorem Dom.get_alloc_ne (d : Dom) (n : Node) (j : Nat) (h : j ≠ d.fresh) :
    (d.alloc n).2.get j = d.get j := by
  rw [Dom.get_alloc, if_neg h]

theorem Dom.alloc_fst (d : Dom) (n : Node) : (d.alloc n).1 = d.fresh := rfl

theorem Dom.alloc_fresh (d : Dom) (n : Node) : (d.alloc n).2.fresh = d.fresh + 1 := rfl

theorem Dom.fresh_upd (d : Dom) (i : Nat) (n : Node) : (d.upd i n).fresh = d.fresh := rfl

theorem Dom.fresh_modify (d : Dom) (i : Nat) (f : Node → Node) :
    (d.modify i f).fresh = d.fresh := by
  unfold Dom.modify
  cases d.get i <;> rfl

theorem updL_updL (l : List (Nat × Node)) (i : Nat) (a b : Node) :
    updL (updL l i a) i b = updL l i b := by
  induction l with
  | nil => rfl
  | cons p rest ih =>
    obtain ⟨c, m⟩ := p
    by_cases h : c = i
    · subst h
      simp [updL, ih]
    · simp [updL, h, ih]

theorem updL_comm (l : List (Nat × Node)) (i j : Nat) (a b : Node) (h : i ≠ j) :
    updL (updL l i a) j b = updL (updL l j b) i a := by
  induction l with
  | nil => rfl
  | cons p rest ih =>
    obtain ⟨c, m⟩ := p
    by_cases hci : c = i
    · subst hci
      simp [updL, h, Ne.symm h, ih]
    · by_cases hcj : c = j
      · subst hcj
        simp [updL, h, hci, ih]
      · simp [updL, hci, hcj, ih]

theorem Dom.modify_modify_self (d : Dom) (i : Nat) (f g : Node → Node) :
    (d.modify i f).modify i g = d.modify i (fun n => g (f n)) := by
  unfold Dom.modify
  cases h : d.get i with
  | none => simp [h]
  | some m =>
    have h2 : (d.upd i (f m)).get i = some (f m) := by
      rw [Dom.get_upd, if_pos rfl, h, Option.map_some']
    simp only [h, h2]
    show (d.upd i (f m)).upd i (g (f m)) = d.upd i (g (f m))
    simp only [Dom.upd, updL_updL]

theorem Dom.modify_comm (d : Dom) (i j : Nat) (f g : Node → Node) (h : i ≠ j) :
    (d.modify i f).modify j g = (d.modify j g).modify i f := by
  unfold Dom.modify
  cases hi : d.get i with
  | none =>
    cases hj : d.get j with
    | none => simp [hi, hj]
    | some mj =>
      have : (d.upd j (g mj)).get i = none := by
        rw [Dom.get_upd, if_neg h, hi]
      simp [hi, hj, this]
  | some mi =>
    cases hj : d.get j with
    | none =>
      have : (d.upd i (f mi)).get j = none := by
        rw [Dom.get_upd, if_neg (Ne.symm h), hj]
      simp [hi, hj, this]
    | some mj =>
      have h1 : (d.upd i (f mi)).get j = some mj := by
        rw [Dom.get_upd, if_neg (Ne.symm h), hj]
      have h2 : (d.upd j (g mj)).get i = some mi := by
        rw [Dom.get_upd, if_neg h, hi]
      simp only [hi, hj, h1, h2]
      show (d.upd i (f mi)).upd j (g mj) = (d.upd j (g mj)).upd i (f mi)
      simp only [Dom.upd, updL_comm d.nodes i j (f mi) (g mj) h]

theorem Dom.modify_congr (d : Dom) (i : Nat) (f g : Node → Node)
    (h : ∀ n, f n = g n) : d.modify i f = d.modify i g := by
  unfold Dom.modify
  cases hi : d.get i with
  | none => rfl
  | some m =>
    show d.upd i (f m) = d.upd i (g m)
    rw [h m]

theorem attachedB_eq_true (d : Dom) (i : Nat) :
    attachedB d i = true ↔ ∃ n pp, d.get i = some n ∧ n.parent = some pp := by
  unfold attachedB
  cases h : d.get i with
  | none => simp
  | some n => cases hp : n.parent <;> simp [hp]

theorem detach_parent_self (d : Dom) (p c : Nat) (n : Node) (h : d.get c = some n) :
    ((d.detach p c).get c).map Node.parent = some none := by
  unfold Dom.detach
  rw [Dom.get_modify, if_pos rfl, Dom.get_modify]
  by_cases hcp : c = p
  · rw [if_pos hcp]
    have h2 : d.get p = some n := by rw [← hcp]; exact h
    rw [h2]
    rfl
  · rw [if_neg hcp, h]
    rfl

theorem detach_parent_other (d : Dom) (p c j : Nat) (h : j ≠ c) :
    ((d.detach p c).get j).map Node.parent = (d.get j).map Node.parent := by
  unfold Dom.detach
  rw [Dom.get_modify, if_neg h, Dom.get_modify]
  by_cases hjp : j = p
  · subst hjp
    rw [if_pos rfl]
    cases d.get j <;> rfl
  · rw [if_neg hjp]

theorem detach_attached_other (d : Dom) (p c j : Nat) (h : j ≠ c) :
    attachedB (d.detach p c) j = attachedB d j := by
  have hp := detach_parent_other d p c j h
  unfold attachedB
  cases h1 : (d.detach p c).get j with
  | none =>
    rw [h1] at hp
    cases h2 : d.get j with
    | none => rfl
    | some m => rw [h2] at hp; exact absurd hp.symm (by simp)
  | some m =>
    rw [h1] at hp
    cases h2 : d.get j with
    | none => rw [h2] at hp; exact absurd hp (by simp)
    | some m2 =>
      rw [h2] at hp
      simp only [Option.map_some', Option.some.injEq] at hp
      simp [hp]

/-- Frame/progress lemma for `remove` on a list of distinct attached entries:
every listed element ends up detached, every other node's parent link is
untouched. -/
theorem removeList_detach_spec (l : List (Option Nat)) :
    ∀ d : Dom, (l.filterMap id).Nodup →
    (∀ i : Nat, some i ∈ l → attachedB d i = true) →
    ∃ D : Dom, removeList l d = .ok D ∧
      (∀ i : Nat, some i ∈ l → (D.get i).map Node.parent = some none) ∧
      (∀ j : Nat, (some j ∉ l) → (D.get j).map Node.parent = (d.get j).map Node.parent) := by
  induction l with
  | nil =>
    intro d _ _
    exact ⟨d, rfl, by simp, fun j _ => rfl⟩
  | cons e rest ih =>
    intro d hnd hatt
    cases e with
    | none =>
      have hnd2 : (rest.filterMap id).Nodup := by simpa using hnd
      obtain ⟨D, hD, hdet, hfr⟩ := ih d hnd2 (fun i hi => hatt i (List.mem_cons_of_mem _ hi))
      refine ⟨D, ?_, ?_, ?_⟩
      · show removeList (none :: rest) d = .ok D
        simpa [removeList, removeOne] using hD
      · intro i hi
        rcases List.mem_cons.mp hi with h | h
        · exact absurd h (by simp)
        · exact hdet i h
      · intro j hj
        exact hfr j (fun hc => hj (List.mem_cons_of_mem _ hc))
    | some c =>
      obtain ⟨n, p, hc, hpar⟩ :=
        (attachedB_eq_true d c).mp (hatt c (List.mem_cons_self _ _))
      have hstep : removeOne (some c) d = .ok (d.detach p c) := by
        simp [removeOne, hc, hpar]
      have hnd2 : (rest.filterMap id).Nodup := by
        simpa using (List.nodup_cons.mp (by simpa using hnd)).2
      have hcni : c ∉ rest.filterMap id := by
        exact (List.nodup_cons.mp (by simpa using hnd)).1
      have hcnotin : some c ∉ rest := fun hmem =>
        hcni (List.mem_filterMap.mpr ⟨some c, hmem, rfl⟩)
      have hatt2 : ∀ i : Nat, some i ∈ rest → attachedB (d.detach p c) i = true := by
        intro i hi
        have : i ≠ c := fun he => hcnotin (he ▸ hi)
        rw [detach_attached_other d p c i this]
        exact hatt i (List.mem_cons_of_mem _ hi)
      obtain ⟨D, hD, hdet, hfr⟩ := ih (d.detach p c) hnd2 hatt2
      refine ⟨D, ?_, ?_, ?_⟩
      · show removeList (some c :: rest) d = .ok D
        simpa [removeList, hstep] using hD
      · intro i hi
        rcases List.mem_cons.mp hi with h | h
        · have he : i = c := by simpa using h
          subst he
          rw [hfr i hcnotin]
          exact detach_parent_self d p i n hc
        · exact hdet i h
      · intro j hj
        have hjc : j ≠ c := fun he => hj (by simp [he])
        rw [hfr j (fun hc2 => hj (List.mem_cons_of_mem _ hc2)),
            detach_parent_other d p c j hjc]

/-! ### Lemmas about attribute lists -/

theorem getPair_setPair_self (l : List (String × String)) (k v : String) :
    getPair (setPair l k v) k = some v := by
  induction l with
  | nil => simp [setPair, getPair]
  | cons p rest ih =>
    obtain ⟨a, b⟩ := p
    by_cases h : a = k
    · subst h
      simp [setPair, getPair]
    · simp [setPair, getPair, h, ih]

theorem getPair_setPair_ne (l : List (String × String)) (k v k2 : String)
    (h : ¬ k = k2) : getPair (setPair l k v) k2 = getPair l k2 := by
  induction l with
  | nil => simp [setPair, getPair, h]
  | cons p rest ih =>
    obtain ⟨a, b⟩ := p
    by_cases ha : a = k
    · subst ha
      simp [setPair, getPair, h]
    · by_cases hab : a = k2 <;> simp [setPair, getPair, ha, hab, ih, Ne.symm h]

theorem setAttr_attrs (n : Node) (k v : String) :
    (n.setAttr k v).attrs = setPair n.attrs k v := by
  unfold Node.setAttr
  by_cases h : (k == "class") = true
  · rw [if_pos h]
  · rw [if_neg h]

theorem removeAttr_attrs (n : Node) (k : String) :
    (n.removeAttr k).attrs = n.attrs.filter (fun p => p.1 != k) := by
  unfold Node.removeAttr
  by_cases h : (k == "class") = true
  · rw [if_pos h]
  · rw [if_neg h]

theorem removeAttr_parent (n : Node) (k : String) :
    (n.removeAttr k).parent = n.parent := by
  unfold Node.removeAttr
  by_cases h : (k == "class") = true
  · rw [if_pos h]
  · rw [if_neg h]

theorem removeAttr_children (n : Node) (k : String) :
    (n.removeAttr k).children = n.children := by
  unfold Node.removeAttr
  by_cases h : (k == "class") = true
  · rw [if_pos h]
  · rw [if_neg h]

theorem removeAttr_classes_of_ne (n : Node) (k : String) (h : ¬ (k == "class") = true) :
    (n.removeAttr k).classes = n.classes := by
  unfold Node.removeAttr
  rw [if_neg h]

/-- What `getAttribute` reads back after `each attrs …` has applied every
pair via `setAttribute`: the last binding wins, otherwise the original
attribute value. -/
theorem getAttribute_each (attrs : List (String × JsVal)) :
    ∀ (d : Dom) (i : Nat) (n : Node) (k : String), d.get i = some n →
    getAttribute (some i) k (each attrs i d) =
      (match lastVal attrs k with
       | some v => some v.toStr
       | none => getPair n.attrs k) := by
  induction attrs with
  | nil =>
    intro d i n k h
    show getAttribute (some i) k d = _
    simp only [getAttribute, h, lastVal]
  | cons p rest ih =>
    obtain ⟨a, v⟩ := p
    intro d i n k h
    have hstep : each ((a, v) :: rest) i d =
        each rest i (d.modify i (fun m => m.setAttr a v.toStr)) := rfl
    rw [hstep]
    have h2 : (d.modify i (fun m => m.setAttr a v.toStr)).get i =
        some (n.setAttr a v.toStr) := Dom.get_modify_self d i _ n h
    rw [ih _ i (n.setAttr a v.toStr) k h2]
    show _ = (match lastVal ((a, v) :: rest) k with
       | some w => some w.toStr
       | none => getPair n.attrs k)
    simp only [lastVal]
    cases hlv : lastVal rest k with
    | some w => rfl
    | none =>
      by_cases hak : a = k
      · subst hak
        rw [if_pos rfl]
        rw [setAttr_attrs, getPair_setPair_self]
      · rw [if_neg hak]
        rw [setAttr_attrs, getPair_setPair_ne _ _ _ _ hak]

theorem getPair_filter_self (l : List (String × String)) (k : String) :
    getPair (l.filter (fun p => p.1 != k)) k = none := by
  induction l with
  | nil => rfl
  | cons p rest ih =>
    obtain ⟨a, b⟩ := p
    by_cases h : a = k
    · subst h
      simpa [List.filter_cons] using ih
    · simpa [List.filter_cons, h, getPair] using ih

theorem removeAttr_idem (n : Node) (k : String) :
    (n.removeAttr k).removeAttr k = n.removeAttr k := by
  unfold Node.removeAttr
  by_cases h : (k == "class") = true
  · simp [h, List.filter_filter]
  · simp [h, List.filter_filter]

/-- `setDisabled` writes exactly the requested flag (as presence of the
`disabled` attribute). -/
theorem disabled_after_setDisabled (d : Dom) (i : Nat) (n : Node) (b : Bool)
    (h : d.get i = some n) :
    ((setDisabled d i b).get i).map Node.disabledProp = some b := by
  unfold setDisabled
  rw [Dom.get_modify_self _ _ _ _ h]
  cases b with
  | true =>
    show some (Node.disabledProp (n.setAttr "disabled" "")) = some true
    unfold Node.disabledProp
    rw [setAttr_attrs, getPair_setPair_self]
    rfl
  | false =>
    show some (Node.disabledProp (n.removeAttr "disabled")) = some false
    unfold Node.disabledProp
    rw [removeAttr_attrs, getPair_filter_self]
    rfl

theorem setDisabled_get_ne (d : Dom) (i j : Nat) (b : Bool) (h : j ≠ i) :
    (setDisabled d i b).get j = d.get j := Dom.get_modify_ne _ _ _ _ h

/-- Stripping the `disabled` attribute never moves a node: the parent link
seen through `removeAttribute … 'disabled'` is unchanged. -/
theorem parent_after_removeDisabled (o : Option Nat) (d : Dom) (j : Nat) :
    ((removeAttribute o (.single "disabled") d).get j).map Node.parent =
      (d.get j).map Node.parent := by
  cases o with
  | none => rfl
  | some e =>
    show ((d.modify e (fun n => n.removeAttr "disabled")).get j).map Node.parent = _
    rw [Dom.get_modify]
    by_cases h : j = e
    · subst h
      rw [if_pos rfl]
      cases d.get j <;> simp [removeAttr_parent]
    · rw [if_neg h]

/-! ### Lemmas about `innerHTML` materialisation -/

theorem attrFold_fresh (attrs : List (String × String)) (i : Nat) :
    ∀ d : Dom,
    (attrs.foldl (fun acc kv => acc.modify i (fun n => n.setAttr kv.1 kv.2)) d).fresh = d.fresh := by
  induction attrs with
  | nil => intro d; rfl
  | cons kv rest ih =>
    intro d
    rw [List.foldl_cons, ih, Dom.fresh_modify]

theorem attrFold_get_ne (attrs : List (String × String)) (i j : Nat) (h : j ≠ i) :
    ∀ d : Dom,
    (attrs.foldl (fun acc kv => acc.modify i (fun n => n.setAttr kv.1 kv.2)) d).get j = d.get j := by
  induction attrs with
  | nil => intro d; rfl
  | cons kv rest ih =>
    intro d
    rw [List.foldl_cons, ih, Dom.get_modify_ne _ _ _ _ h]

/-- The materialiser only allocates: the fresh counter grows and every
pre-existing node is untouched. -/
theorem matN_preserve : ∀ (fuel : Nat) (parent : Option Nat) (pns : List PNode) (d : Dom),
    d.fresh ≤ (matN fuel parent pns d).2.fresh ∧
    (∀ j : Nat, j < d.fresh → (matN fuel parent pns d).2.get j = d.get j) := by
  intro fuel
  induction fuel with
  | zero => exact fun parent pns d => ⟨Nat.le_refl _, fun j hj => rfl⟩
  | succ fuel ih =>
    intro parent pns d
    match pns with
    | [] => exact ⟨Nat.le_refl _, fun j hj => rfl⟩
    | .text s :: rest =>
      have heq : matN (fuel + 1) parent (.text s :: rest) d =
          (d.fresh ::
            (matN fuel parent rest (d.alloc { tag := "#text", text := s, parent := parent }).2).1,
           (matN fuel parent rest (d.alloc { tag := "#text", text := s, parent := parent }).2).2) :=
        rfl
      rw [heq]
      dsimp only
      obtain ⟨h1, h2⟩ := ih parent rest (d.alloc { tag := "#text", text := s, parent := parent }).2
      have hfa : (d.alloc { tag := "#text", text := s, parent := parent }).2.fresh = d.fresh + 1 :=
        rfl
      refine ⟨by omega, ?_⟩
      intro j hj
      rw [h2 j (by omega), Dom.get_alloc, if_neg (by omega)]
    | .elem tag attrs children :: rest =>
      have heq : matN (fuel + 1) parent (.elem tag attrs children :: rest) d =
          (d.fresh ::
            (matN fuel parent rest
              (((matN fuel (some d.fresh) children
                  (attrs.foldl (fun acc kv => acc.modify d.fresh fun n => n.setAttr kv.1 kv.2)
                    (d.alloc { tag := tag, parent := parent }).2)).2).modify d.fresh
                (fun n => { n with children :=
                  (matN fuel (some d.fresh) children
                    (attrs.foldl (fun acc kv => acc.modify d.fresh fun n => n.setAttr kv.1 kv.2)
                      (d.alloc { tag := tag, parent := parent }).2)).1 }))).1,
           (matN fuel parent rest
              (((matN fuel (some d.fresh) children
                  (attrs.foldl (fun acc kv => acc.modify d.fresh fun n => n.setAttr kv.1 kv.2)
                    (d.alloc { tag := tag, parent := parent }).2)).2).modify d.fresh
                (fun n => { n with children :=
                  (matN fuel (some d.fresh) children
                    (attrs.foldl (fun acc kv => acc.modify d.fresh fun n => n.setAttr kv.1 kv.2)
                      (d.alloc { tag := tag, parent := parent }).2)).1 }))).2) := rfl
      rw [heq]
      dsimp only
      obtain ⟨hc1, hc2⟩ := ih (some d.fresh) children
        (attrs.foldl (fun acc kv => acc.modify d.fresh fun n => n.setAttr kv.1 kv.2)
          (d.alloc { tag := tag, parent := parent }).2)
      obtain ⟨hr1, hr2⟩ := ih parent rest
        (((matN fuel (some d.fresh) children
            (attrs.foldl (fun acc kv => acc.modify d.fresh fun n => n.setAttr kv.1 kv.2)
              (d.alloc { tag := tag, parent := parent }).2)).2).modify d.fresh
          (fun n => { n with children :=
            (matN fuel (some d.fresh) children
              (attrs.foldl (fun acc kv => acc.modify d.fresh fun n => n.setAttr kv.1 kv.2)
                (d.alloc { tag := tag, parent := parent }).2)).1 }))
      have hfalloc : (d.alloc { tag := tag, parent := parent }).2.fresh = d.fresh + 1 := rfl
      have hffold := attrFold_fresh attrs d.fresh (d.alloc { tag := tag, parent := parent }).2
      have hfmod : (((matN fuel (some d.fresh) children
            (attrs.foldl (fun acc kv => acc.modify d.fresh fun n => n.setAttr kv.1 kv.2)
              (d.alloc { tag := tag, parent := parent }).2)).2).modify d.fresh
          (fun n => { n with children :=
            (matN fuel (some d.fresh) children
              (attrs.foldl (fun acc kv => acc.modify d.fresh fun n => n.setAttr kv.1 kv.2)
                (d.alloc { tag := tag, parent := parent }).2)).1 })).fresh =
          ((matN fuel (some d.fresh) children
            (attrs.foldl (fun acc kv => acc.modify d.fresh fun n => n.setAttr kv.1 kv.2)
              (d.alloc { tag := tag, parent := parent }).2)).2).fresh :=
        Dom.fresh_modify _ _ _
      refine ⟨by omega, ?_⟩
      intro j hj
      rw [hr2 j (by omega), Dom.get_modify_ne _ _ _ _ (by omega),
          hc2 j (by omega), attrFold_get_ne attrs d.fresh j (by omega),
          Dom.get_alloc, if_neg (by omega)]

/-- With at least one unit of fuel, the materialiser returns an empty id
list exactly for an empty fragment. -/
theorem matN_fst_nil_iff (fuel : Nat) (parent : Option Nat) (pns : List PNode) (d : Dom)
    (h : 1 ≤ fuel) : ((matN fuel parent pns d).1 = [] ↔ pns = []) := by
  match fuel, pns with
  | 0, _ => omega
  | fuel + 1, [] => simp [matN]
  | fuel + 1, .text s :: rest => simp [matN]
  | fuel + 1, .elem tag attrs children :: rest => simp [matN]

/-! ### Claim theorems: DOM helper layer -/

/-- C3: every DOM helper taking an element as first argument, when called
with a null element, returns null or false or leaves the document unchanged
(the fallible ones return `.ok` with the document unchanged), and never
throws. -/
theorem c3_null_element_is_safe :
    ∀ (d : Dom) (selector className name : String) (value : JsVal)
      (styles : List (String × JsVal)) (classes : JsArg String)
      (names : JsArg String) (e r : Option Nat),
    find none selector d = none ∧
    child none className d = none ∧
    remove (.single none) d = .ok d ∧
    append none e d = .ok d ∧
    before none r d = .ok d ∧
    applyStyle none styles d = d ∧
    addClass none classes d = .ok d ∧
    removeClass none classes d = .ok d ∧
    hasClass none className d = false ∧
    setAttribute none name value d = d ∧
    getAttribute none name d = none ∧
    removeAttribute none names d = d := by
  intro d selector className name value styles classes names e r
  exact ⟨rfl, rfl, rfl, rfl, rfl, rfl, rfl, rfl, rfl, rfl, rfl, rfl⟩

/-- C4, counterexample: `remove` on a non-null element that has no parent is
not a no-op — `elm.parentElement` is null, so `null.removeChild` throws a
TypeError (here: the `.error` result), contradicting the claim that remove
"is a no-op (does not throw) … on elements that have no parent". -/
theorem c4_counterexample :
    remove (.single (some 5)) fxDomDetached = .error "TypeError: null parentElement" := rfl

/-- C4 (amended): `remove` accepts a single element or an array; each
non-null *attached* entry is detached from its parent; it is a no-op on null
entries; but a non-null entry with no parent makes it throw (a TypeError from
`null.removeChild`) rather than no-op. -/
theorem c4_remove_detaches_amended :
    (∀ d : Dom, remove (.single none) d = .ok d) ∧
    (∀ (d : Dom) (i p : Nat) (n : Node), d.get i = some n → n.parent = some p →
      remove (.single (some i)) d = .ok (d.detach p i) ∧
      ((d.detach p i).get i).map Node.parent = some none) ∧
    (∀ (d : Dom) (i p : Nat) (n pn : Node), d.get i = some n → n.parent = some p →
      d.get p = some pn → ¬ p = i →
      ((d.detach p i).get p).map Node.children =
        some (pn.children.filter (fun x => x != i))) ∧
    (∀ (d : Dom) (l : List (Option Nat)), (l.filterMap id).Nodup →
      (∀ i : Nat, some i ∈ l → attachedB d i = true) →
      ∃ D : Dom, remove (.arr l) d = .ok D ∧
        (∀ i : Nat, some i ∈ l → (D.get i).map Node.parent = some none) ∧
        (∀ j : Nat, some j ∉ l → (D.get j).map Node.parent = (d.get j).map Node.parent)) ∧
    (∀ (d : Dom) (i : Nat) (n : Node), d.get i = some n → n.parent = none →
      remove (.single (some i)) d = .error "TypeError: null parentElement") := by
  refine ⟨fun d => rfl, ?_, ?_, ?_, ?_⟩
  · intro d i p n hi hp
    constructor
    · show removeList [some i] d = .ok (d.detach p i)
      simp [removeList, removeOne, hi, hp]
    · exact detach_parent_self d p i n hi
  · intro d i p n pn hi hp hpn hpi
    unfold Dom.detach
    rw [Dom.get_modify_ne _ _ _ _ hpi, Dom.get_modify, if_pos rfl, hpn]
    rfl
  · intro d l hnd hatt
    exact removeList_detach_spec l d hnd hatt
  · intro d i n hi hp
    show removeList [some i] d = .error "TypeError: null parentElement"
    simp [removeList, removeOne, hi, hp]

/-- C4, witness: the amended theorem applied to a concrete attached element
(id 1 under parent 0) and to a concrete array of one null and one attached
entry. -/
theorem c4_witness :
    (remove (.single (some 1)) fxDomAttached = .ok (fxDomAttached.detach 0 1) ∧
      ((fxDomAttached.detach 0 1).get 1).map Node.parent = some none) ∧
    (∃ D : Dom, remove (.arr [none, some 1]) fxDomAttached = .ok D ∧
      (∀ i : Nat, some i ∈ ([none, some 1] : List (Option Nat)) →
        (D.get i).map Node.parent = some none) ∧
      (∀ j : Nat, some j ∉ ([none, some 1] : List (Option Nat)) →
        (D.get j).map Node.parent = (fxDomAttached.get j).map Node.parent)) ∧
    remove (.single (some 5)) fxDomDetached = .error "TypeError: null parentElement" := by
  have h := c4_remove_detaches_amended
  refine ⟨h.2.1 fxDomAttached 1 0 { tag := "span", parent := some 0 } rfl rfl, ?_, ?_⟩
  · refine h.2.2.2.1 fxDomAttached [none, some 1] (by decide) ?_
    intro i hi
    rcases List.mem_cons.mp hi with h1 | h1
    · exact absurd h1 (by simp)
    · rcases List.mem_cons.mp h1 with h2 | h2
      · have he : i = 1 := by simpa using h2
        subst he
        decide
      · exact absurd h2 (by simp)
  · exact h.2.2.2.2 fxDomDetached 5 { tag := "div" } rfl rfl

/-- C5, counterexample: `create` does *not* skip falsy attribute values —
`setAttribute`'s guard is on the element, not the value, so
`create('div', {hidden: false})` sets `hidden="false"` (the value is
string-coerced), where the claim requires the pair to be skipped (a null
`getAttribute`). -/
theorem c5_counterexample :
    getAttribute (some 0) "hidden" (create "div" [("hidden", JsVal.bool false)] fxEmpty).2 =
      some "false" ∧
    getAttribute (some 0) "hidden" (create "div" [("hidden", JsVal.bool false)] fxEmpty).2 ≠
      none := ⟨rfl, by decide⟩

/-- C5 (amended): `create( tag, attrs )` yields an element on which *every*
key/value pair of `attrs` is set as an attribute with its value
string-coerced (the last binding of a repeated key winning); falsy values are
not skipped. In particular `create('div', {id:'x', 'data-y':'z'})` has
`getAttribute('id') = 'x'` and `getAttribute('data-y') = 'z'`. -/
theorem c5_create_sets_every_attr_amended :
    (∀ (tag : String) (attrs : List (String × JsVal)) (d : Dom) (k : String),
      getAttribute (some (create tag attrs d).1) k (create tag attrs d).2 =
        (match lastVal attrs k with
         | some v => some v.toStr
         | none => none)) ∧
    (∀ d : Dom,
      getAttribute (some (create "div" [("id", JsVal.str "x"), ("data-y", JsVal.str "z")] d).1)
          "id" (create "div" [("id", JsVal.str "x"), ("data-y", JsVal.str "z")] d).2 =
        some "x" ∧
      getAttribute (some (create "div" [("id", JsVal.str "x"), ("data-y", JsVal.str "z")] d).1)
          "data-y" (create "div" [("id", JsVal.str "x"), ("data-y", JsVal.str "z")] d).2 =
        some "z") := by
  have hmain : ∀ (tag : String) (attrs : List (String × JsVal)) (d : Dom) (k : String),
      getAttribute (some (create tag attrs d).1) k (create tag attrs d).2 =
        (match lastVal attrs k with
         | some v => some v.toStr
         | none => none) := by
    intro tag attrs d k
    have halloc : (d.alloc { tag := tag }).2.get d.fresh = some { tag := tag } := by
      rw [Dom.get_alloc, if_pos rfl]
    have := getAttribute_each attrs (d.alloc { tag := tag }).2 d.fresh { tag := tag } k halloc
    show getAttribute (some d.fresh) k (each attrs d.fresh (d.alloc { tag := tag }).2) = _
    rw [this]
    cases lastVal attrs k <;> rfl
  refine ⟨hmain, fun d => ⟨?_, ?_⟩⟩
  · rw [hmain "div" [("id", JsVal.str "x"), ("data-y", JsVal.str "z")] d "id"]
    decide
  · rw [hmain "div" [("id", JsVal.str "x"), ("data-y", JsVal.str "z")] d "data-y"]
    decide

/-- C6, counterexample: `addClass(elm, "a b")` passes the single string
`"a b"` to `classList.add`, and a `DOMTokenList` token containing spaces
raises `InvalidCharacterError` — neither class is added, contradicting the
claimed `hasClass` results. -/
theorem c6_counterexample :
    addClass (some 0) (.single "a b") fxDomSingle = .error "InvalidCharacterError" ∧
    hasClass (some 0) "a" fxDomSingle = false := ⟨rfl, rfl⟩

/-- One add step of `addOrRemoveClasses`'s `forEach` on a valid non-empty
token. -/
theorem addGo_cons_add (i : Nat) (t : String) (rest : List String) (d : Dom) (m : Node)
    (h : d.get i = some m) (hv : tokenValid t = true) (hne : t ≠ "") :
    addOrRemoveGo i false (t :: rest) d =
      addOrRemoveGo i false rest (d.upd i { m with classes := clsAdd m.classes t }) := by
  simp [addOrRemoveGo, h, classListAdd, hv, hne]

/-- One remove step of `addOrRemoveClasses`'s `forEach` on a valid non-empty
token. -/
theorem addGo_cons_remove (i : Nat) (t : String) (rest : List String) (d : Dom) (m : Node)
    (h : d.get i = some m) (hv : tokenValid t = true) (hne : t ≠ "") :
    addOrRemoveGo i true (t :: rest) d =
      addOrRemoveGo i true rest (d.upd i { m with classes := m.classes.filter (fun x => x != t) }) := by
  simp [addOrRemoveGo, h, classListRemove, hv, hne]

theorem mem_clsAdd_self (cs : List String) (t : String) : t ∈ clsAdd cs t := by
  unfold clsAdd
  by_cases h : cs.contains t = true
  · rw [if_pos h]
    simpa using h
  · rw [if_neg h]
    simp

theorem mem_clsAdd_of_mem (cs : List String) (t x : String) (h : x ∈ cs) :
    x ∈ clsAdd cs t := by
  unfold clsAdd
  by_cases hc : cs.contains t = true
  · rw [if_pos hc]
    exact h
  · rw [if_neg hc]
    simp [h]

/-- C6 (amended): with the two class names passed as an array (valid
`DOMTokenList` tokens), `addClass(elm, ["a","b"])` makes `hasClass(elm,"a")`
and `hasClass(elm,"b")` true, and a subsequent `removeClass(elm,"a")` makes
`hasClass(elm,"a")` false while `"b"` remains; the single string `"a b"` is
an invalid token and throws instead (see the counterexample). -/
theorem c6_class_roundtrip_amended :
    ∀ (d : Dom) (i : Nat) (n : Node), d.get i = some n →
    ∃ d1 : Dom, addClass (some i) (.arr ["a", "b"]) d = .ok d1 ∧
      hasClass (some i) "a" d1 = true ∧
      hasClass (some i) "b" d1 = true ∧
      ∃ d2 : Dom, removeClass (some i) (.single "a") d1 = .ok d2 ∧
        hasClass (some i) "a" d2 = false ∧
        hasClass (some i) "b" d2 = true := by
  intro d i n h
  have hta : tokenValid "a" = true := by decide
  have htb : tokenValid "b" = true := by decide
  have e1 := addGo_cons_add i "a" ["b"] d n h hta (by decide)
  have g1 : (d.upd i { n with classes := clsAdd n.classes "a" }).get i =
      some { n with classes := clsAdd n.classes "a" } :=
    Dom.get_upd_self d i _ n h
  have e2 := addGo_cons_add i "b" []
    (d.upd i { n with classes := clsAdd n.classes "a" })
    { n with classes := clsAdd n.classes "a" } g1 htb (by decide)
  have g2 : ((d.upd i { n with classes := clsAdd n.classes "a" }).upd i
        { n with classes := clsAdd (clsAdd n.classes "a") "b" }).get i =
      some { n with classes := clsAdd (clsAdd n.classes "a") "b" } :=
    Dom.get_upd_self _ i _ _ g1
  have eA : addClass (some i) (.arr ["a", "b"]) d =
      .ok ((d.upd i { n with classes := clsAdd n.classes "a" }).upd i
        { n with classes := clsAdd (clsAdd n.classes "a") "b" }) := by
    show addOrRemoveGo i false ["a", "b"] d = _
    rw [e1, e2]
    rfl
  have hma : "a" ∈ clsAdd (clsAdd n.classes "a") "b" :=
    mem_clsAdd_of_mem _ _ _ (mem_clsAdd_self n.classes "a")
  have hmb : "b" ∈ clsAdd (clsAdd n.classes "a") "b" := mem_clsAdd_self _ _
  refine ⟨_, eA, ?_, ?_, ?_⟩
  · simp [hasClass, g2, hma]
  · simp [hasClass, g2, hmb]
  · have e3 := addGo_cons_remove i "a" []
      ((d.upd i { n with classes := clsAdd n.classes "a" }).upd i
        { n with classes := clsAdd (clsAdd n.classes "a") "b" })
      { n with classes := clsAdd (clsAdd n.classes "a") "b" } g2 hta (by decide)
    have g3 := Dom.get_upd_self
      ((d.upd i { n with classes := clsAdd n.classes "a" }).upd i
        { n with classes := clsAdd (clsAdd n.classes "a") "b" }) i
      { n with classes := (clsAdd (clsAdd n.classes "a") "b").filter (fun x => x != "a") }
      { n with classes := clsAdd (clsAdd n.classes "a") "b" } g2
    refine ⟨_, by show addOrRemoveGo i true ["a"] _ = _; rw [e3]; rfl, ?_, ?_⟩
    · simp [hasClass, g3]
    · simp only [hasClass, g3]
      simp [List.mem_filter, hmb]

/-- C6, witness: the amended theorem applied to the concrete single-element
document. -/
theorem c6_witness :
    fxDomSingle.get 0 = some { tag := "div" } ∧
    (∃ d1 : Dom, addClass (some 0) (.arr ["a", "b"]) fxDomSingle = .ok d1 ∧
      hasClass (some 0) "a" d1 = true ∧
      hasClass (some 0) "b" d1 = true ∧
      ∃ d2 : Dom, removeClass (some 0) (.single "a") d1 = .ok d2 ∧
        hasClass (some 0) "a" d2 = false ∧
        hasClass (some 0) "b" d2 = true) :=
  ⟨rfl, c6_class_roundtrip_amended fxDomSingle 0 { tag := "div" } rfl⟩

/-- C9, counterexample: `domify` of a whitespace-only string is *not* null —
the fragment parser produces a whitespace text node (WHATWG fragment
parsing), so `div.firstChild` is that text node; the claim says the result
"is null when html is empty or whitespace-only". -/
theorem c9_counterexample :
    (domify " " fxEmpty).1 = some 1 ∧
    ((domify " " fxEmpty).2.get 1).map (fun n => (n.tag, n.text)) = some ("#text", " ") ∧
    (domify " " fxEmpty).1 ≠ none :=
  ⟨rfl, rfl, by decide⟩

/-- C9 (amended): `domify(html)` parses `html` into a detached container and
returns that container's first child — null exactly when the parsed fragment
is empty, which holds for empty `html` but not for whitespace-only `html`
(that yields a text node); `domify('<span>hi</span>')` returns a `span` node
whose single child is the text node `hi`. -/
theorem c9_domify_first_child_amended :
    (∀ (html : String) (d : Dom),
      ((domify html d).1 = none ↔ parseHTML html = [])) ∧
    (∀ d : Dom, (domify "" d).1 = none) ∧
    ((domify "<span>hi</span>" fxEmpty).1 = some 1 ∧
      ((domify "<span>hi</span>" fxEmpty).2.get 1).map Node.tag = some "span" ∧
      ((domify "<span>hi</span>" fxEmpty).2.get 1).map Node.children = some [2] ∧
      ((domify "<span>hi</span>" fxEmpty).2.get 2).map (fun n => (n.tag, n.text)) =
        some ("#text", "hi")) := by
  have hmain : ∀ (html : String) (d : Dom),
      ((domify html d).1 = none ↔ parseHTML html = []) := by
    intro html d
    have hg2 : (d.alloc { tag := "div" }).2.get d.fresh = some { tag := "div" } := by
      rw [Dom.get_alloc, if_pos rfl]
    obtain ⟨ids, d3, hmat⟩ : ∃ ids d3,
        matN (html.length + 2) (some d.fresh) (parseHTML html)
          (d.alloc { tag := "div" }).2 = (ids, d3) :=
      ⟨_, _, rfl⟩
    have hpres := matN_preserve (html.length + 2) (some d.fresh) (parseHTML html)
      (d.alloc { tag := "div" }).2
    rw [hmat] at hpres
    dsimp only at hpres
    have hg3 : d3.get d.fresh = some { tag := "div" } := by
      rw [← hg2]
      exact hpres.2 d.fresh
        (by rw [show (d.alloc { tag := "div" }).2.fresh = d.fresh + 1 from rfl]; omega)
    have hg4 : (d3.modify d.fresh (fun n => { n with children := ids })).get d.fresh =
        some { tag := "div", children := ids } := Dom.get_modify_self _ _ _ _ hg3
    have hfc : (domify html d).1 = ids.head? := by
      show firstChildOf (setInnerHTML (d.alloc { tag := "div" }).2 d.fresh html) d.fresh = _
      unfold setInnerHTML
      rw [hmat]
      dsimp only
      unfold firstChildOf
      rw [hg4]
    rw [hfc]
    have hids : ids = (matN (html.length + 2) (some d.fresh) (parseHTML html)
        (d.alloc { tag := "div" }).2).1 := by
      rw [hmat]
    rw [List.head?_eq_none_iff, hids,
        matN_fst_nil_iff (html.length + 2) (some d.fresh) (parseHTML html)
          (d.alloc { tag := "div" }).2 (by omega)]
  refine ⟨hmain, ?_, rfl, rfl, rfl, rfl⟩
  intro d
  exact (hmain "" d).mpr rfl

/-! ### Step lemmas for the fabricated-mount path -/

theorem find?_congr_mem (l : List Nat) (p q : Nat → Bool)
    (h : ∀ x ∈ l, p x = q x) : l.find? p = l.find? q := by
  induction l with
  | nil => rfl
  | cons a rest ih =>
    have ha := h a (List.mem_cons_self _ _)
    cases hq : q a with
    | true =>
      rw [List.find?_cons_of_pos _ (ha.trans hq), List.find?_cons_of_pos _ hq]
    | false =>
      rw [List.find?_cons_of_neg _ (by rw [ha, hq]; simp),
          List.find?_cons_of_neg _ (by rw [hq]; simp)]
      exact ih (fun x hx => h x (List.mem_cons_of_mem _ hx))

/-- `firstElementChild` only looks at the target and its children, so two
documents agreeing below a bound compute it identically. -/
theorem firstElementChild_congr (dA dB : Dom) (t bound : Nat)
    (ht : t < bound) (hagree : ∀ j : Nat, j < bound → dA.get j = dB.get j)
    (hch : ∀ n : Node, dB.get t = some n → ∀ c ∈ n.children, c < bound) :
    firstElementChild dA t = firstElementChild dB t := by
  unfold firstElementChild
  rw [hagree t ht]
  cases h : dB.get t with
  | none => rfl
  | some n =>
    refine find?_congr_mem n.children _ _ ?_
    intro c hc
    rw [hagree c (hch n h c hc)]

theorem mem_of_firstElementChild (d : Dom) (t fe : Nat) (tn : Node)
    (ht : d.get t = some tn) (hfe : firstElementChild d t = some fe) :
    fe ∈ tn.children := by
  unfold firstElementChild at hfe
  rw [ht] at hfe
  exact List.mem_of_find?_eq_some hfe

theorem count_insertBeforeL (l : List Nat) (ref n : Nat) (hn : n ∉ l) (href : ref ∈ l) :
    (insertBeforeL l ref n).count n = 1 := by
  induction l with
  | nil => exact absurd href (by simp)
  | cons a rest ih =>
    by_cases ha : a = ref
    · subst ha
      show (insertBeforeL (a :: rest) a n).count n = 1
      unfold insertBeforeL
      rw [if_pos rfl]
      have hna : ¬ (a = n) := fun h => hn (by simp [h])
      have hnr : n ∉ rest := fun h => hn (List.mem_cons_of_mem _ h)
      simp [List.count_cons, hna, fun h : a = n => hna h, List.count_eq_zero.mpr hnr,
        Ne.symm hna]
    · show (insertBeforeL (a :: rest) ref n).count n = 1
      unfold insertBeforeL
      rw [if_neg ha]
      have hmem : ref ∈ rest := by
        rcases List.mem_cons.mp href with h | h
        · exact absurd h.symm ha
        · exact h
      have hna : ¬ (a = n) := fun h => hn (by simp [h])
      rw [List.count_cons_of_ne (Ne.symm hna)]
      exact ih (fun h => hn (List.mem_cons_of_mem _ h)) hmem

theorem insertBeforeL_head (rest : List Nat) (ref n : Nat) :
    insertBeforeL (ref :: rest) ref n = n :: ref :: rest := by
  unfold insertBeforeL
  rw [if_pos rfl]

/-- Full characterisation of `createArrow`: the returned id is the current
fresh id (the button), three nodes are allocated (button > svg > path), and
every other node is untouched. -/
theorem createArrow_spec (ip : Bool) (cfg : SplideCfg) (d : Dom) :
    (createArrow ip cfg d).1 = d.fresh ∧
    (createArrow ip cfg d).2.fresh = d.fresh + 3 ∧
    (createArrow ip cfg d).2.get d.fresh = some
      { tag := "button",
        attrs := [("class",
          cfg.classes.arrow ++ " " ++ (if ip then cfg.classes.prev else cfg.classes.next))],
        classes := [cfg.classes.arrow, if ip then cfg.classes.prev else cfg.classes.next],
        children := [d.fresh + 1] } ∧
    (∀ j : Nat, j ≠ d.fresh → j ≠ d.fresh + 1 → j ≠ d.fresh + 2 →
      (createArrow ip cfg d).2.get j = d.get j) := by
  have hform : (createArrow ip cfg d).2 =
      ((((d.alloc
        { tag := "button",
          attrs := [("class",
            cfg.classes.arrow ++ " " ++ (if ip then cfg.classes.prev else cfg.classes.next))],
          classes := [cfg.classes.arrow,
            if ip then cfg.classes.prev else cfg.classes.next] }).2.alloc
        { tag := "svg",
          attrs := [("xmlns", XML_NAME_SPACE),
                    ("viewBox", "0 0 " ++ toString SIZE ++ " " ++ toString SIZE),
                    ("width", toString SIZE), ("height", toString SIZE)],
          parent := some d.fresh }).2.alloc
        { tag := "path",
          attrs := [("d",
            if cfg.options.arrowPath ≠ "" then cfg.options.arrowPath else PATH)],
          parent := some (d.fresh + 1) }).2.modify d.fresh
        (fun n => { n with children := [d.fresh + 1] })).modify (d.fresh + 1)
        (fun n => { n with children := [d.fresh + 2] }) := rfl
  refine ⟨rfl, ?_, ?_, ?_⟩
  · rw [hform, Dom.fresh_modify, Dom.fresh_modify]
    rfl
  · rw [hform, Dom.get_modify_ne _ _ _ _ (by omega)]
    have h0 : ((((d.alloc
        { tag := "button",
          attrs := [("class",
            cfg.classes.arrow ++ " " ++ (if ip then cfg.classes.prev else cfg.classes.next))],
          classes := [cfg.classes.arrow,
            if ip then cfg.classes.prev else cfg.classes.next] }).2.alloc
        { tag := "svg",
          attrs := [("xmlns", XML_NAME_SPACE),
                    ("viewBox", "0 0 " ++ toString SIZE ++ " " ++ toString SIZE),
                    ("width", toString SIZE), ("height", toString SIZE)],
          parent := some d.fresh }).2.alloc
        { tag := "path",
          attrs := [("d",
            if cfg.options.arrowPath ≠ "" then cfg.options.arrowPath else PATH)],
          parent := some (d.fresh + 1) }).2).get d.fresh = some
      { tag := "button",
        attrs := [("class",
          cfg.classes.arrow ++ " " ++ (if ip then cfg.classes.prev else cfg.classes.next))],
        classes := [cfg.classes.arrow, if ip then cfg.classes.prev else cfg.classes.next] } := by
      rw [Dom.get_alloc_ne _ _ _ (by show d.fresh ≠ d.fresh + 2; omega),
          Dom.get_alloc_ne _ _ _ (by show d.fresh ≠ d.fresh + 1; omega),
          Dom.get_alloc_self]
    rw [Dom.get_modify_self _ _ _ _ h0]
  · intro j h1 h2 h3
    rw [hform, Dom.get_modify_ne _ _ _ _ h2, Dom.get_modify_ne _ _ _ _ h1,
        Dom.get_alloc_ne _ _ _ (by show j ≠ d.fresh + 2; exact h3),
        Dom.get_alloc_ne _ _ _ (by show j ≠ d.fresh + 1; exact h2),
        Dom.get_alloc_ne _ _ _ h1]

/-- Characterisation of the wrapper `create('div', { class: … })`. -/
theorem create_wrapper_spec (v : String) (d : Dom) :
    (create "div" [("class", JsVal.str v)] d).1 = d.fresh ∧
    (create "div" [("class", JsVal.str v)] d).2.fresh = d.fresh + 1 ∧
    (create "div" [("class", JsVal.str v)] d).2.get d.fresh = some
      { tag := "div", attrs := [("class", v)],
        classes := (v.splitOn " ").filter (fun s => s ≠ "") } ∧
    (∀ j : Nat, j ≠ d.fresh → (create "div" [("class", JsVal.str v)] d).2.get j = d.get j) := by
  have hform : (create "div" [("class", JsVal.str v)] d).2 =
      (d.alloc { tag := "div" }).2.modify d.fresh
        (fun n => n.setAttr "class" (JsVal.str v).toStr) := rfl
  have h0 : (d.alloc { tag := "div" }).2.get d.fresh = some { tag := "div" } := by
    rw [Dom.get_alloc, if_pos rfl]
  refine ⟨rfl, ?_, ?_, ?_⟩
  · rw [hform, Dom.fresh_modify]
    rfl
  · rw [hform, Dom.get_modify_self _ _ _ _ h0]
    rfl
  · intro j hj
    rw [hform, Dom.get_modify_ne _ _ _ _ hj, Dom.get_alloc_ne _ _ _ hj]

/-- `append` of a detached live child into a live parent. -/
theorem append_detached_spec (d : Dom) (w c : Nat) (wn cn : Node)
    (hw : d.get w = some wn) (hc : d.get c = some cn) (hcp : cn.parent = none)
    (hwc : w ≠ c) :
    append (some w) (some c) d =
      .ok ((d.modify w (fun n => { n with children := n.children ++ [c] })).modify c
        (fun n => { n with parent := some w })) ∧
    ((d.modify w (fun n => { n with children := n.children ++ [c] })).modify c
        (fun n => { n with parent := some w })).get w =
      some { wn with children := wn.children ++ [c] } ∧
    ((d.modify w (fun n => { n with children := n.children ++ [c] })).modify c
        (fun n => { n with parent := some w })).get c =
      some { cn with parent := some w } ∧
    (∀ j : Nat, j ≠ w → j ≠ c →
      ((d.modify w (fun n => { n with children := n.children ++ [c] })).modify c
        (fun n => { n with parent := some w })).get j = d.get j) ∧
    ((d.modify w (fun n => { n with children := n.children ++ [c] })).modify c
        (fun n => { n with parent := some w })).fresh = d.fresh := by
  have hpl : d.pluck c = d := by
    unfold Dom.pluck
    rw [hc]
    dsimp only
    rw [hcp]
  have hgc : (d.modify w (fun n => { n with children := n.children ++ [c] })).get c =
      some cn := by
    rw [Dom.get_modify_ne _ _ _ _ (Ne.symm hwc), hc]
  refine ⟨?_, ?_, ?_, ?_, ?_⟩
  · unfold append
    dsimp only
    rw [hc]
    dsimp only
    rw [hpl]
  · rw [Dom.get_modify_ne _ _ _ _ hwc, Dom.get_modify_self _ _ _ _ hw]
  · rw [Dom.get_modify_self _ _ _ _ hgc]
  · intro j hjw hjc
    rw [Dom.get_modify_ne _ _ _ _ hjc, Dom.get_modify_ne _ _ _ _ hjw]
  · rw [Dom.fresh_modify, Dom.fresh_modify]

theorem before_none (e : Option Nat) (d : Dom) : before e none d = .ok d := by
  cases e <;> rfl

/-- `before` when the reference is a live child of a live parent and the
inserted node is live and detached. -/
theorem before_insert_spec (d : Dom) (w fe t : Nat) (wn fn tn : Node)
    (hw : d.get w = some wn) (hwp : wn.parent = none)
    (hfe : d.get fe = some fn) (hfp : fn.parent = some t)
    (ht : d.get t = some tn) (hmem : fe ∈ tn.children)
    (hwt : w ≠ t) :
    before (some w) (some fe) d =
      .ok ((d.modify t (fun n => { n with children := insertBeforeL n.children fe w })).modify w
        (fun n => { n with parent := some t })) ∧
    ((d.modify t (fun n => { n with children := insertBeforeL n.children fe w })).modify w
        (fun n => { n with parent := some t })).get t =
      some { tn with children := insertBeforeL tn.children fe w } ∧
    ((d.modify t (fun n => { n with children := insertBeforeL n.children fe w })).modify w
        (fun n => { n with parent := some t })).get w = some { wn with parent := some t } ∧
    (∀ j : Nat, j ≠ t → j ≠ w →
      ((d.modify t (fun n => { n with children := insertBeforeL n.children fe w })).modify w
        (fun n => { n with parent := some t })).get j = d.get j) ∧
    ((d.modify t (fun n => { n with children := insertBeforeL n.children fe w })).modify w
        (fun n => { n with parent := some t })).fresh = d.fresh := by
  have hpl : d.pluck w = d := by
    unfold Dom.pluck
    rw [hw]
    dsimp only
    rw [hwp]
  refine ⟨?_, ?_, ?_, ?_, ?_⟩
  · unfold before
    dsimp only
    rw [hfe]
    dsimp only
    rw [hfp]
    dsimp only
    unfold insertBefore
    rw [hw]
    dsimp only
    rw [ht]
    dsimp only
    rw [if_pos hmem, hpl]
  · rw [Dom.get_modify_ne _ _ _ _ (Ne.symm hwt), Dom.get_modify_self _ _ _ _ ht]
  · have h1 : (d.modify t
        (fun n => { n with children := insertBeforeL n.children fe w })).get w = some wn := by
      rw [Dom.get_modify_ne _ _ _ _ hwt, hw]
    rw [Dom.get_modify_self _ _ _ _ h1]
  · intro j hjt hjw
    rw [Dom.get_modify_ne _ _ _ _ hjw, Dom.get_modify_ne _ _ _ _ hjt]
  · rw [Dom.fresh_modify, Dom.fresh_modify]

/-- `firstElementChild` is stable under changes that keep the target's child
list and every child's tag. -/
theorem firstElementChild_congr_tag (dA dB : Dom) (t : Nat) (tnA tnB : Node)
    (hA : dA.get t = some tnA) (hB : dB.get t = some tnB)
    (hcs : tnA.children = tnB.children)
    (htag : ∀ c ∈ tnB.children, (dA.get c).map Node.tag = (dB.get c).map Node.tag) :
    firstElementChild dA t = firstElementChild dB t := by
  unfold firstElementChild
  rw [hA, hB]
  dsimp only
  rw [hcs]
  refine find?_congr_mem tnB.children _ _ ?_
  intro c hc
  have hct := htag c hc
  cases h1 : dA.get c with
  | none =>
    cases h2 : dB.get c with
    | none => rfl
    | some m2 => rw [h1, h2] at hct; exact absurd hct (by simp)
  | some m1 =>
    cases h2 : dB.get c with
    | none => rw [h1, h2] at hct; exact absurd hct (by simp)
    | some m2 =>
      rw [h1, h2] at hct
      simp only [Option.map_some', Option.some.injEq] at hct
      simp [hct]

theorem filter_insertBeforeL (l : List Nat) (ref n : Nat) (hn : n ∉ l) :
    (insertBeforeL l ref n).filter (fun x => x != n) = l := by
  induction l with
  | nil => rfl
  | cons a rest ih =>
    have hna : ¬ (a = n) := fun h => hn (by simp [h])
    by_cases ha : a = ref
    · subst ha
      show ((insertBeforeL (a :: rest) a n).filter (fun x => x != n)) = _
      unfold insertBeforeL
      rw [if_pos rfl]
      have hrest : ∀ x ∈ rest, (x != n) = true := by
        intro x hx
        have : ¬ (x = n) := fun h => hn (List.mem_cons_of_mem _ (h ▸ hx))
        simpa using this
      simp [List.filter_cons, hna, Ne.symm hna, List.filter_eq_self.mpr hrest]
    · show ((insertBeforeL (a :: rest) ref n).filter (fun x => x != n)) = _
      unfold insertBeforeL
      rw [if_neg ha]
      rw [List.filter_cons]
      have : (a != n) = true := by simpa using hna
      rw [if_pos this, ih (fun h => hn (List.mem_cons_of_mem _ h))]

/-- Full characterisation of `appendArrows` when the chosen parent has a
first element child: the wrapper (allocated at `D.fresh`) receives both
arrows and is inserted immediately before that child. -/
theorem appendArrows_insert_spec (cfg : SplideCfg) (els : ElementsC) (D : Dom)
    (a1 a2 fe : Nat) (n1 n2 tn fn : Node)
    (ha1 : D.get a1 = some n1) (hp1 : n1.parent = none)
    (ha2 : D.get a2 = some n2) (hp2 : n2.parent = none)
    (ht : D.get (appendTarget cfg els) = some tn)
    (hch : ∀ c ∈ tn.children, c < D.fresh)
    (hfe : firstElementChild D (appendTarget cfg els) = some fe)
    (hfn : D.get fe = some fn) (hfp : fn.parent = some (appendTarget cfg els))
    (ha12 : a1 ≠ a2) (hb1 : a1 < D.fresh) (hb2 : a2 < D.fresh)
    (hbt : appendTarget cfg els < D.fresh) (hbfe : fe < D.fresh)
    (hta1 : appendTarget cfg els ≠ a1) (hta2 : appendTarget cfg els ≠ a2)
    (hfa1 : fe ≠ a1) (hfa2 : fe ≠ a2) :
    ∃ Dfin : Dom,
      appendArrows cfg els a1 a2 D = .ok Dfin ∧
      Dfin.get D.fresh = some
        { tag := "div", attrs := [("class", cfg.classes.arrows)],
          classes := (cfg.classes.arrows.splitOn " ").filter (fun s => s ≠ ""),
          children := [a1, a2], parent := some (appendTarget cfg els) } ∧
      Dfin.get (appendTarget cfg els) =
        some { tn with children := insertBeforeL tn.children fe D.fresh } ∧
      Dfin.get a1 = some { n1 with parent := some D.fresh } ∧
      Dfin.get a2 = some { n2 with parent := some D.fresh } ∧
      (∀ j : Nat, j ≠ D.fresh → j ≠ appendTarget cfg els → j ≠ a1 → j ≠ a2 →
        Dfin.get j = D.get j) ∧
      Dfin.fresh = D.fresh + 1 := by
  obtain ⟨hcf, hcfr, hcw, hcj⟩ := create_wrapper_spec cfg.classes.arrows D
  have hwa1 : D.fresh ≠ a1 := by omega
  have hwa2 : D.fresh ≠ a2 := by omega
  have hwt : D.fresh ≠ appendTarget cfg els := by omega
  have hwfe : D.fresh ≠ fe := by omega
  -- facts in d3 := after create
  have g3a1 : (create "div" [("class", JsVal.str cfg.classes.arrows)] D).2.get a1 = some n1 :=
    (hcj a1 (by omega)).trans ha1
  have g3a2 : (create "div" [("class", JsVal.str cfg.classes.arrows)] D).2.get a2 = some n2 :=
    (hcj a2 (by omega)).trans ha2
  -- first append
  obtain ⟨e1, g4w, g4a1, g4j, f4⟩ := append_detached_spec
    (create "div" [("class", JsVal.str cfg.classes.arrows)] D).2 D.fresh a1
    { tag := "div", attrs := [("class", cfg.classes.arrows)],
      classes := (cfg.classes.arrows.splitOn " ").filter (fun s => s ≠ "") } n1
    hcw g3a1 hp1 hwa1
  set d4 : Dom := ((create "div" [("class", JsVal.str cfg.classes.arrows)] D).2.modify D.fresh
    (fun n => { n with children := n.children ++ [a1] })).modify a1
    (fun n => { n with parent := some D.fresh }) with hd4
  have g4a2 : d4.get a2 = some n2 := by
    rw [g4j a2 (Ne.symm hwa2) (Ne.symm ha12), g3a2]
  -- second append
  obtain ⟨e2, g5w, g5a2, g5j, f5⟩ := append_detached_spec d4 D.fresh a2
    { tag := "div", attrs := [("class", cfg.classes.arrows)],
      classes := (cfg.classes.arrows.splitOn " ").filter (fun s => s ≠ ""),
      children := [] ++ [a1] } n2
    g4w g4a2 hp2 hwa2
  set d5 : Dom := (d4.modify D.fresh (fun n => { n with children := n.children ++ [a2] })).modify
    a2 (fun n => { n with parent := some D.fresh }) with hd5
  have g5a1 : d5.get a1 = some { n1 with parent := some D.fresh } := by
    rw [g5j a1 (Ne.symm hwa1) ha12]
    exact g4a1
  have g5t : d5.get (appendTarget cfg els) = some tn := by
    rw [g5j _ (Ne.symm hwt) hta2, g4j _ (Ne.symm hwt) hta1]
    exact (hcj _ (Ne.symm hwt)).trans ht
  have g5fe : d5.get fe = some fn := by
    rw [g5j _ (Ne.symm hwfe) hfa2, g4j _ (Ne.symm hwfe) hfa1]
    exact (hcj _ (Ne.symm hwfe)).trans hfn
  -- preserved-below facts for the tag congruence
  have g5tag : ∀ c ∈ tn.children, (d5.get c).map Node.tag = (D.get c).map Node.tag := by
    intro c hc
    by_cases hca1 : c = a1
    · subst hca1
      rw [g5a1, ha1]
      rfl
    · by_cases hca2 : c = a2
      · subst hca2
        rw [g5a2, ha2]
        rfl
      · have : d5.get c = D.get c := by
          rw [g5j c (by have := hch c hc; omega) hca2,
              g4j c (by have := hch c hc; omega) hca1]
          exact hcj c (by have := hch c hc; omega)
        rw [this]
  have hfe5 : firstElementChild d5 (appendTarget cfg els) = some fe := by
    rw [firstElementChild_congr_tag d5 D (appendTarget cfg els) tn tn g5t ht rfl g5tag]
    exact hfe
  -- the final insertion
  obtain ⟨e3, g6t, g6w, g6j, f6⟩ := before_insert_spec d5 D.fresh fe (appendTarget cfg els)
    { tag := "div", attrs := [("class", cfg.classes.arrows)],
      classes := (cfg.classes.arrows.splitOn " ").filter (fun s => s ≠ ""),
      children := [] ++ [a1] ++ [a2] } fn tn
    g5w rfl g5fe hfp g5t
    (mem_of_firstElementChild D (appendTarget cfg els) fe tn ht hfe) hwt
  refine ⟨(d5.modify (appendTarget cfg els)
      (fun n => { n with children := insertBeforeL n.children fe D.fresh })).modify D.fresh
      (fun n => { n with parent := some (appendTarget cfg els) }), ?_, ?_, ?_, ?_, ?_, ?_, ?_⟩
  · show appendArrows cfg els a1 a2 D = _
    unfold appendArrows
    dsimp only
    rw [hcf, e1]
    dsimp only
    rw [e2]
    dsimp only
    rw [hfe5]
    exact e3
  · simpa using g6w
  · exact g6t
  · rw [g6j a1 (Ne.symm hta1) (Ne.symm hwa1)]
    exact g5a1
  · rw [g6j a2 (Ne.symm hta2) (Ne.symm hwa2)]
    exact g5a2
  · intro j hjw hjt hja1 hja2
    rw [g6j j hjt hjw, g5j j hjw hja2, g4j j hjw hja1]
    exact hcj j hjw
  · rw [f6, f5, f4, hcfr]

/-- Characterisation of `appendArrows` when the chosen parent has no element
child: the wrapper receives both arrows but `before` no-ops, leaving the
wrapper detached and the parent untouched. -/
theorem appendArrows_detached_spec (cfg : SplideCfg) (els : ElementsC) (D : Dom)
    (a1 a2 : Nat) (n1 n2 tn : Node)
    (ha1 : D.get a1 = some n1) (hp1 : n1.parent = none)
    (ha2 : D.get a2 = some n2) (hp2 : n2.parent = none)
    (ht : D.get (appendTarget cfg els) = some tn)
    (hch : ∀ c ∈ tn.children, c < D.fresh)
    (hfe : firstElementChild D (appendTarget cfg els) = none)
    (ha12 : a1 ≠ a2) (hb1 : a1 < D.fresh) (hb2 : a2 < D.fresh)
    (hbt : appendTarget cfg els < D.fresh)
    (hta1 : appendTarget cfg els ≠ a1) (hta2 : appendTarget cfg els ≠ a2) :
    ∃ Dfin : Dom,
      appendArrows cfg els a1 a2 D = .ok Dfin ∧
      Dfin.get D.fresh = some
        { tag := "div", attrs := [("class", cfg.classes.arrows)],
          classes := (cfg.classes.arrows.splitOn " ").filter (fun s => s ≠ ""),
          children := [a1, a2], parent := none } ∧
      Dfin.get (appendTarget cfg els) = some tn ∧
      Dfin.get a1 = some { n1 with parent := some D.fresh } ∧
      Dfin.get a2 = some { n2 with parent := some D.fresh } ∧
      (∀ j : Nat, j ≠ D.fresh → j ≠ a1 → j ≠ a2 → Dfin.get j = D.get j) ∧
      Dfin.fresh = D.fresh + 1 := by
  obtain ⟨hcf, hcfr, hcw, hcj⟩ := create_wrapper_spec cfg.classes.arrows D
  have hwa1 : D.fresh ≠ a1 := by omega
  have hwa2 : D.fresh ≠ a2 := by omega
  have hwt : D.fresh ≠ appendTarget cfg els := by omega
  have g3a1 : (create "div" [("class", JsVal.str cfg.classes.arrows)] D).2.get a1 = some n1 :=
    (hcj a1 (by omega)).trans ha1
  have g3a2 : (create "div" [("class", JsVal.str cfg.classes.arrows)] D).2.get a2 = some n2 :=
    (hcj a2 (by omega)).trans ha2
  obtain ⟨e1, g4w, g4a1, g4j, f4⟩ := append_detached_spec
    (create "div" [("class", JsVal.str cfg.classes.arrows)] D).2 D.fresh a1
    { tag := "div", attrs := [("class", cfg.classes.arrows)],
      classes := (cfg.classes.arrows.splitOn " ").filter (fun s => s ≠ "") } n1
    hcw g3a1 hp1 hwa1
  set d4 : Dom := ((create "div" [("class", JsVal.str cfg.classes.arrows)] D).2.modify D.fresh
    (fun n => { n with children := n.children ++ [a1] })).modify a1
    (fun n => { n with parent := some D.fresh }) with hd4
  have g4a2 : d4.get a2 = some n2 := by
    rw [g4j a2 (Ne.symm hwa2) (Ne.symm ha12), g3a2]
  obtain ⟨e2, g5w, g5a2, g5j, f5⟩ := append_detached_spec d4 D.fresh a2
    { tag := "div", attrs := [("class", cfg.classes.arrows)],
      classes := (cfg.classes.arrows.splitOn " ").filter (fun s => s ≠ ""),
      children := [] ++ [a1] } n2
    g4w g4a2 hp2 hwa2
  set d5 : Dom := (d4.modify D.fresh (fun n => { n with children := n.children ++ [a2] })).modify
    a2 (fun n => { n with parent := some D.fresh }) with hd5
  have g5a1 : d5.get a1 = some { n1 with parent := some D.fresh } := by
    rw [g5j a1 (Ne.symm hwa1) ha12]
    exact g4a1
  have g5t : d5.get (appendTarget cfg els) = some tn := by
    rw [g5j _ (Ne.symm hwt) hta2, g4j _ (Ne.symm hwt) hta1]
    exact (hcj _ (Ne.symm hwt)).trans ht
  have g5tag : ∀ c ∈ tn.children, (d5.get c).map Node.tag = (D.get c).map Node.tag := by
    intro c hc
    by_cases hca1 : c = a1
    · subst hca1
      rw [g5a1, ha1]
      rfl
    · by_cases hca2 : c = a2
      · subst hca2
        rw [g5a2, ha2]
        rfl
      · have : d5.get c = D.get c := by
          rw [g5j c (by have := hch c hc; omega) hca2,
              g4j c (by have := hch c hc; omega) hca1]
          exact hcj c (by have := hch c hc; omega)
        rw [this]
  have hfe5 : firstElementChild d5 (appendTarget cfg els) = none := by
    rw [firstElementChild_congr_tag d5 D (appendTarget cfg els) tn tn g5t ht rfl g5tag]
    exact hfe
  refine ⟨d5, ?_, ?_, ?_, ?_, ?_, ?_, ?_⟩
  · show appendArrows cfg els a1 a2 D = _
    unfold appendArrows
    dsimp only
    rw [hcf, e1]
    dsimp only
    rw [e2]
    dsimp only
    rw [hfe5]
    exact before_none _ _
  · simpa using g5w
  · exact g5t
  · exact g5a1
  · exact g5a2
  · intro j hjw hja1 hja2
    rw [g5j j hjw hja2, g4j j hjw hja1]
    exact hcj j hjw
  · rw [f5, f4, hcfr]

/-- Master lemma for the fabricated-mount path when the insertion target has
a first element child: `mount` allocates prev (`d0.fresh`), next
(`d0.fresh + 3`) and the wrapper (`d0.fresh + 6`), wires them up, and inserts
the wrapper before that child. -/
theorem mount_fab_insert_spec (cfg : SplideCfg) (els : ElementsC) (d0 : Dom)
    (tn fn : Node) (fe : Nat)
    (hpn : els.arrowsPrev = none) (hnn : els.arrowsNext = none)
    (htr : cfg.options.arrows.truthy = true)
    (ht : d0.get (appendTarget cfg els) = some tn)
    (hbt : appendTarget cfg els < d0.fresh)
    (hch : ∀ c ∈ tn.children, c < d0.fresh)
    (hfe : firstElementChild d0 (appendTarget cfg els) = some fe)
    (hfn : d0.get fe = some fn) (hfp : fn.parent = some (appendTarget cfg els))
    (hbfe : fe < d0.fresh) :
    ∃ Dfin : Dom,
      mount cfg els d0 =
        .ok (⟨some d0.fresh, some (d0.fresh + 3), true, true⟩, Dfin) ∧
      Dfin.get (d0.fresh + 6) = some
        { tag := "div", attrs := [("class", cfg.classes.arrows)],
          classes := (cfg.classes.arrows.splitOn " ").filter (fun s => s ≠ ""),
          children := [d0.fresh, d0.fresh + 3],
          parent := some (appendTarget cfg els) } ∧
      Dfin.get (appendTarget cfg els) =
        some { tn with children := insertBeforeL tn.children fe (d0.fresh + 6) } ∧
      Dfin.get d0.fresh = some
        { tag := "button",
          attrs := [("class", cfg.classes.arrow ++ " " ++ cfg.classes.prev)],
          classes := [cfg.classes.arrow, cfg.classes.prev],
          children := [d0.fresh + 1], parent := some (d0.fresh + 6) } ∧
      Dfin.get (d0.fresh + 3) = some
        { tag := "button",
          attrs := [("class", cfg.classes.arrow ++ " " ++ cfg.classes.next)],
          classes := [cfg.classes.arrow, cfg.classes.next],
          children := [d0.fresh + 4], parent := some (d0.fresh + 6) } ∧
      (∀ j : Nat, j < d0.fresh → j ≠ appendTarget cfg els → Dfin.get j = d0.get j) ∧
      Dfin.fresh = d0.fresh + 7 := by
  obtain ⟨hc1f, hc1fr, hc1b, hc1j⟩ := createArrow_spec true cfg d0
  obtain ⟨hc2f, hc2fr, hc2b, hc2j⟩ := createArrow_spec false cfg (createArrow true cfg d0).2
  have hf1 : (createArrow true cfg d0).2.fresh = d0.fresh + 3 := hc1fr
  have hf2 : (createArrow false cfg (createArrow true cfg d0).2).2.fresh = d0.fresh + 6 := by
    rw [hc2fr, hf1]
  have hagree : ∀ j : Nat, j < d0.fresh →
      (createArrow false cfg (createArrow true cfg d0).2).2.get j = d0.get j := by
    intro j hj
    rw [hc2j j (by rw [hf1]; omega) (by rw [hf1]; omega) (by rw [hf1]; omega)]
    exact hc1j j (by omega) (by omega) (by omega)
  have g2a1 : (createArrow false cfg (createArrow true cfg d0).2).2.get d0.fresh = some
      { tag := "button",
        attrs := [("class", cfg.classes.arrow ++ " " ++ cfg.classes.prev)],
        classes := [cfg.classes.arrow, cfg.classes.prev],
        children := [d0.fresh + 1] } := by
    rw [hc2j _ (by rw [hf1]; omega) (by rw [hf1]; omega) (by rw [hf1]; omega)]
    simpa using hc1b
  have g2a2 : (createArrow false cfg (createArrow true cfg d0).2).2.get (d0.fresh + 3) = some
      { tag := "button",
        attrs := [("class", cfg.classes.arrow ++ " " ++ cfg.classes.next)],
        classes := [cfg.classes.arrow, cfg.classes.next],
        children := [d0.fresh + 4] } := by
    have : (createArrow false cfg (createArrow true cfg d0).2).2.get
        ((createArrow true cfg d0).2.fresh) = some
        { tag := "button",
          attrs := [("class", cfg.classes.arrow ++ " " ++ cfg.classes.next)],
          classes := [cfg.classes.arrow, cfg.classes.next],
          children := [(createArrow true cfg d0).2.fresh + 1] } := by
      simpa using hc2b
    rw [hf1] at this
    exact this
  have g2t : (createArrow false cfg (createArrow true cfg d0).2).2.get (appendTarget cfg els) =
      some tn := (hagree _ hbt).trans ht
  have g2fe : (createArrow false cfg (createArrow true cfg d0).2).2.get fe = some fn :=
    (hagree _ hbfe).trans hfn
  have g2fec : firstElementChild (createArrow false cfg (createArrow true cfg d0).2).2
      (appendTarget cfg els) = some fe := by
    rw [firstElementChild_congr (createArrow false cfg (createArrow true cfg d0).2).2 d0
      (appendTarget cfg els) d0.fresh hbt hagree
      (fun n hn c hc => hch c (by rw [ht] at hn; injection hn with h; rw [← h] at hc; exact hc))]
    exact hfe
  obtain ⟨Dfin, eA, gw, gt, ga1, ga2, gj, gf⟩ := appendArrows_insert_spec cfg els
    (createArrow false cfg (createArrow true cfg d0).2).2 d0.fresh (d0.fresh + 3) fe
    _ _ tn fn g2a1 rfl g2a2 rfl g2t
    (fun c hc => by rw [hf2]; have := hch c hc; omega)
    g2fec g2fe hfp (by omega) (by rw [hf2]; omega) (by rw [hf2]; omega)
    (by rw [hf2]; omega) (by rw [hf2]; omega) (by omega) (by omega)
    (by omega) (by omega)
  rw [hf2] at gw gt ga1 ga2 gj gf
  have hcond : ((els.arrowsPrev.isNone || els.arrowsNext.isNone) &&
      cfg.options.arrows.truthy) = true := by
    rw [hpn, hnn, htr]
    rfl
  refine ⟨Dfin, ?_, gw, gt, ga1, ga2,
    (fun j hj hjt =>
      (gj j (by omega) hjt (by omega) (by omega)).trans (hagree j hj)), by rw [gf]⟩
  unfold mount
  rw [if_pos hcond]
  dsimp only
  rw [hc1f]
  rw [show (createArrow false cfg (createArrow true cfg d0).2).1 = d0.fresh + 3 from by
    rw [hc2f, hf1]]
  rw [eA]

/-- Master lemma for the fabricated-mount path when the insertion target has
NO element child: `before( wrapper, null )` no-ops, so the wrapper stays
detached and the target is untouched. -/
theorem mount_fab_detached_spec (cfg : SplideCfg) (els : ElementsC) (d0 : Dom)
    (tn : Node)
    (hpn : els.arrowsPrev = none) (hnn : els.arrowsNext = none)
    (htr : cfg.options.arrows.truthy = true)
    (ht : d0.get (appendTarget cfg els) = some tn)
    (hbt : appendTarget cfg els < d0.fresh)
    (hch : ∀ c ∈ tn.children, c < d0.fresh)
    (hfe : firstElementChild d0 (appendTarget cfg els) = none) :
    ∃ Dfin : Dom,
      mount cfg els d0 =
        .ok (⟨some d0.fresh, some (d0.fresh + 3), true, true⟩, Dfin) ∧
      Dfin.get (d0.fresh + 6) = some
        { tag := "div", attrs := [("class", cfg.classes.arrows)],
          classes := (cfg.classes.arrows.splitOn " ").filter (fun s => s ≠ ""),
          children := [d0.fresh, d0.fresh + 3], parent := none } ∧
      Dfin.get (appendTarget cfg els) = some tn ∧
      (∀ j : Nat, j < d0.fresh → Dfin.get j = d0.get j) ∧
      Dfin.fresh = d0.fresh + 7 := by
  obtain ⟨hc1f, hc1fr, hc1b, hc1j⟩ := createArrow_spec true cfg d0
  obtain ⟨hc2f, hc2fr, hc2b, hc2j⟩ := createArrow_spec false cfg (createArrow true cfg d0).2
  have hf1 : (createArrow true cfg d0).2.fresh = d0.fresh + 3 := hc1fr
  have hf2 : (createArrow false cfg (createArrow true cfg d0).2).2.fresh = d0.fresh + 6 := by
    rw [hc2fr, hf1]
  have hagree : ∀ j : Nat, j < d0.fresh →
      (createArrow false cfg (createArrow true cfg d0).2).2.get j = d0.get j := by
    intro j hj
    rw [hc2j j (by rw [hf1]; omega) (by rw [hf1]; omega) (by rw [hf1]; omega)]
    exact hc1j j (by omega) (by omega) (by omega)
  have g2a1 : (createArrow false cfg (createArrow true cfg d0).2).2.get d0.fresh = some
      { tag := "button",
        attrs := [("class", cfg.classes.arrow ++ " " ++ cfg.classes.prev)],
        classes := [cfg.classes.arrow, cfg.classes.prev],
        children := [d0.fresh + 1] } := by
    rw [hc2j _ (by rw [hf1]; omega) (by rw [hf1]; omega) (by rw [hf1]; omega)]
    simpa using hc1b
  have g2a2 : (createArrow false cfg (createArrow true cfg d0).2).2.get (d0.fresh + 3) = some
      { tag := "button",
        attrs := [("class", cfg.classes.arrow ++ " " ++ cfg.classes.next)],
        classes := [cfg.classes.arrow, cfg.classes.next],
        children := [d0.fresh + 4] } := by
    have : (createArrow false cfg (createArrow true cfg d0).2).2.get
        ((createArrow true cfg d0).2.fresh) = some
        { tag := "button",
          attrs := [("class", cfg.classes.arrow ++ " " ++ cfg.classes.next)],
          classes := [cfg.classes.arrow, cfg.classes.next],
          children := [(createArrow true cfg d0).2.fresh + 1] } := by
      simpa using hc2b
    rw [hf1] at this
    exact this
  have g2t : (createArrow false cfg (createArrow true cfg d0).2).2.get (appendTarget cfg els) =
      some tn := (hagree _ hbt).trans ht
  have g2fec : firstElementChild (createArrow false cfg (createArrow true cfg d0).2).2
      (appendTarget cfg els) = none := by
    rw [firstElementChild_congr (createArrow false cfg (createArrow true cfg d0).2).2 d0
      (appendTarget cfg els) d0.fresh hbt hagree
      (fun n hn c hc => hch c (by rw [ht] at hn; injection hn with h; rw [← h] at hc; exact hc))]
    exact hfe
  obtain ⟨Dfin, eA, gw, gt, ga1, ga2, gj, gf⟩ := appendArrows_detached_spec cfg els
    (createArrow false cfg (createArrow true cfg d0).2).2 d0.fresh (d0.fresh + 3)
    _ _ tn g2a1 rfl g2a2 rfl g2t
    (fun c hc => by rw [hf2]; have := hch c hc; omega)
    g2fec (by omega) (by rw [hf2]; omega) (by rw [hf2]; omega)
    (by omega) (by omega) (by omega)
  rw [hf2] at gw ga1 ga2 gj gf
  have hcond : ((els.arrowsPrev.isNone || els.arrowsNext.isNone) &&
      cfg.options.arrows.truthy) = true := by
    rw [hpn, hnn, htr]
    rfl
  refine ⟨Dfin, ?_, gw, gt,
    (fun j hj =>
      (gj j (by omega) (by omega) (by omega)).trans (hagree j hj)), by rw [gf]⟩
  unfold mount
  rw [if_pos hcond]
  dsimp only
  rw [hc1f]
  rw [show (createArrow false cfg (createArrow true cfg d0).2).1 = d0.fresh + 3 from by
    rw [hc2f, hf1]]
  rw [eA]

/-- `removeAttribute` on a single name is one `modify`. -/
theorem removeAttribute_single (o : Option Nat) (k : String) (d : Dom) :
    removeAttribute o (.single k) d =
      (match o with
       | none => d
       | some e => d.modify e (fun n => n.removeAttr k)) := by
  cases o <;> rfl

/-- `destroy` on a fabricated, attached layout: strip `disabled` from both
buttons, then remove the wrapper from its parent. -/
theorem destroy_fab_spec (D : Dom) (a1 a2 w t : Nat) (n1 n2 wn m : Node)
    (ha1 : D.get a1 = some n1) (hp1 : n1.parent = some w)
    (ha2 : D.get a2 = some n2) (hp2 : n2.parent = some w)
    (hw : D.get w = some wn) (hwp : wn.parent = some t)
    (htn : D.get t = some m)
    (ha12 : a1 ≠ a2) (hwa1 : w ≠ a1) (hwa2 : w ≠ a2)
    (hta1 : t ≠ a1) (hta2 : t ≠ a2) (htw : t ≠ w) :
    ∃ D2 : Dom,
      destroy ⟨some a1, some a2, true, true⟩ D = .ok D2 ∧
      (D2.get w).map Node.parent = some none ∧
      D2.get t = some { m with children := m.children.filter (fun x => x != w) } ∧
      (D2.get a1).map Node.parent = some (some w) ∧
      (D2.get a2).map Node.parent = some (some w) ∧
      (∀ j : Nat, j ≠ a1 → j ≠ a2 → j ≠ w → j ≠ t → D2.get j = D.get j) := by
  have hd2a1 : ((D.modify a1 (fun n => n.removeAttr "disabled")).modify a2
      (fun n => n.removeAttr "disabled")).get a1 = some (n1.removeAttr "disabled") := by
    rw [Dom.get_modify_ne _ _ _ _ ha12, Dom.get_modify_self _ _ _ _ ha1]
  have hd2a2 : ((D.modify a1 (fun n => n.removeAttr "disabled")).modify a2
      (fun n => n.removeAttr "disabled")).get a2 = some (n2.removeAttr "disabled") := by
    rw [Dom.get_modify_self]
    rw [Dom.get_modify_ne _ _ _ _ (Ne.symm ha12)]
    exact ha2
  have hd2w : ((D.modify a1 (fun n => n.removeAttr "disabled")).modify a2
      (fun n => n.removeAttr "disabled")).get w = some wn := by
    rw [Dom.get_modify_ne _ _ _ _ hwa2, Dom.get_modify_ne _ _ _ _ hwa1]
    exact hw
  have hd2t : ((D.modify a1 (fun n => n.removeAttr "disabled")).modify a2
      (fun n => n.removeAttr "disabled")).get t = some m := by
    rw [Dom.get_modify_ne _ _ _ _ hta2, Dom.get_modify_ne _ _ _ _ hta1]
    exact htn
  refine ⟨((D.modify a1 (fun n => n.removeAttr "disabled")).modify a2
      (fun n => n.removeAttr "disabled")).detach t w, ?_, ?_, ?_, ?_, ?_, ?_⟩
  · show destroy _ _ = _
    unfold destroy
    dsimp only
    rw [removeAttribute_single, removeAttribute_single]
    dsimp only
    rw [if_pos rfl]
    rw [hd2a1]
    dsimp only
    rw [removeAttr_parent, hp1]
    show remove (JsArg.single (some w)) _ = _
    unfold remove
    show removeList [some w] _ = _
    unfold removeList
    unfold removeOne
    dsimp only
    rw [hd2w]
    dsimp only
    rw [hwp]
    rfl
  · exact detach_parent_self _ t w _ hd2w
  · unfold Dom.detach
    rw [Dom.get_modify_ne _ _ _ _ htw, Dom.get_modify_self _ _ _ _ hd2t]
  · unfold Dom.detach
    rw [Dom.get_modify_ne _ _ _ _ (Ne.symm hwa1), Dom.get_modify_ne _ _ _ _ (Ne.symm hta1),
        hd2a1, Option.map_some', removeAttr_parent, hp1]
  · unfold Dom.detach
    rw [Dom.get_modify_ne _ _ _ _ (Ne.symm hwa2), Dom.get_modify_ne _ _ _ _ (Ne.symm hta2),
        hd2a2, Option.map_some', removeAttr_parent, hp2]
  · intro j hja1 hja2 hjw hjt
    unfold Dom.detach
    rw [Dom.get_modify_ne _ _ _ _ hjw, Dom.get_modify_ne _ _ _ _ hjt,
        Dom.get_modify_ne _ _ _ _ hja2, Dom.get_modify_ne _ _ _ _ hja1]

/-! ### Claim theorems: Arrows component -/

/-- C1: for every navigation state (both arrow references present and live),
`updateDisabled` sets the previous arrow's `disabled` flag exactly when the
previous target index is negative or the item count does not exceed
`perPage`, likewise for the next arrow, and emits a `name:updated`
notification carrying both arrows and both indices. -/
theorem c1_updateDisabled_spec :
    ∀ (name : String) (cfg : SplideCfg) (ctrl : Controller) (st : ArrowsState) (d : Dom)
      (p q : Nat) (np nq : Node),
    st.prev = some p → st.next = some q → p ≠ q →
    d.get p = some np → d.get q = some nq →
    (updateDisabled name cfg ctrl st d =
      .ok (setDisabled (setDisabled d p
              (decide (ctrl.prevIndex < 0) || !decide (cfg.length > cfg.options.perPage))) q
              (decide (ctrl.nextIndex < 0) || !decide (cfg.length > cfg.options.perPage)),
            { event := name ++ ":updated", arg1 := some p, arg2 := some q,
              idx1 := ctrl.prevIndex, idx2 := ctrl.nextIndex })) ∧
    (((setDisabled (setDisabled d p
          (decide (ctrl.prevIndex < 0) || !decide (cfg.length > cfg.options.perPage))) q
          (decide (ctrl.nextIndex < 0) || !decide (cfg.length > cfg.options.perPage))).get p).map
        Node.disabledProp =
      some (decide (ctrl.prevIndex < 0 ∨ cfg.length ≤ cfg.options.perPage))) ∧
    (((setDisabled (setDisabled d p
          (decide (ctrl.prevIndex < 0) || !decide (cfg.length > cfg.options.perPage))) q
          (decide (ctrl.nextIndex < 0) || !decide (cfg.length > cfg.options.perPage))).get q).map
        Node.disabledProp =
      some (decide (ctrl.nextIndex < 0 ∨ cfg.length ≤ cfg.options.perPage))) := by
  intro name cfg ctrl st d p q np nq hp hq hpq hgp hgq
  have hb : ∀ x : Int,
      (decide (x < 0) || !decide (cfg.length > cfg.options.perPage)) =
        decide (x < 0 ∨ cfg.length ≤ cfg.options.perPage) := by
    intro x
    by_cases h1 : x < 0
    · simp [h1]
    · by_cases h2 : cfg.length ≤ cfg.options.perPage
      · simp [h1, h2, Nat.not_lt.mpr h2]
      · simp [h1, h2, Nat.not_le.mp h2]
  refine ⟨?_, ?_, ?_⟩
  · unfold updateDisabled
    rw [hp, hq]
    dsimp only
    rw [hgp, hgq]
  · rw [setDisabled_get_ne _ _ _ _ hpq,
        disabled_after_setDisabled d p np _ hgp, hb]
  · have h2 : (setDisabled d p
        (decide (ctrl.prevIndex < 0) || !decide (cfg.length > cfg.options.perPage))).get q =
        some nq :=
      (setDisabled_get_ne d p q _ (Ne.symm hpq)).trans hgq
    rw [disabled_after_setDisabled _ q nq _ h2, hb]

/-- C1, witness: the claim's own instance — previous index −1, next index 2,
3 slides with `perPage` 1 (sufficient content): the previous arrow ends up
disabled and the next arrow does not, and the `arrows:updated` record carries
both arrows and both indices. -/
theorem c1_witness :
    (fxStButtons.prev = some 1 ∧ fxStButtons.next = some 2 ∧
      fxDomButtons.get 1 = some { tag := "button" } ∧
      fxDomButtons.get 2 = some { tag := "button" }) ∧
    updateDisabled "arrows" fxCfg ⟨-1, 2⟩ fxStButtons fxDomButtons =
      .ok (setDisabled (setDisabled fxDomButtons 1
              (decide ((Controller.mk (-1) 2).prevIndex < 0) ||
                !decide (fxCfg.length > fxCfg.options.perPage))) 2
              (decide ((Controller.mk (-1) 2).nextIndex < 0) ||
                !decide (fxCfg.length > fxCfg.options.perPage)),
            { event := "arrows" ++ ":updated", arg1 := some 1, arg2 := some 2,
              idx1 := (Controller.mk (-1) 2).prevIndex,
              idx2 := (Controller.mk (-1) 2).nextIndex }) ∧
    (((setDisabled (setDisabled fxDomButtons 1
          (decide ((Controller.mk (-1) 2).prevIndex < 0) ||
            !decide (fxCfg.length > fxCfg.options.perPage))) 2
          (decide ((Controller.mk (-1) 2).nextIndex < 0) ||
            !decide (fxCfg.length > fxCfg.options.perPage))).get 1).map Node.disabledProp =
      some true) ∧
    (((setDisabled (setDisabled fxDomButtons 1
          (decide ((Controller.mk (-1) 2).prevIndex < 0) ||
            !decide (fxCfg.length > fxCfg.options.perPage))) 2
          (decide ((Controller.mk (-1) 2).nextIndex < 0) ||
            !decide (fxCfg.length > fxCfg.options.perPage))).get 2).map Node.disabledProp =
      some false) := by
  have h := c1_updateDisabled_spec "arrows" fxCfg ⟨-1, 2⟩ fxStButtons fxDomButtons 1 2
    { tag := "button" } { tag := "button" } rfl rfl (by decide) rfl rfl
  exact ⟨⟨rfl, rfl, rfl, rfl⟩, h.1, h.2.1.trans (by decide), h.2.2.trans (by decide)⟩

/-- C10: `mount` registers the listeners (`bind()`) only in states where both
`prev` and `next` are non-null, and in such states `updateDisabled` — which
dereferences both without a guard — succeeds (no thrown error) whenever the
two referenced elements are live. -/
theorem c10_bind_guard_invariant :
    (∀ (cfg : SplideCfg) (els : ElementsC) (d : Dom) (st : ArrowsState) (D : Dom),
      mount cfg els d = .ok (st, D) → st.bound = true →
      st.prev.isSome = true ∧ st.next.isSome = true) ∧
    (∀ (name : String) (cfg : SplideCfg) (ctrl : Controller) (st : ArrowsState) (d : Dom)
      (p q : Nat) (np nq : Node),
      st.prev = some p → st.next = some q → d.get p = some np → d.get q = some nq →
      ∃ r, updateDisabled name cfg ctrl st d = .ok r) := by
  constructor
  · intro cfg els d st D hm hb
    unfold mount at hm
    by_cases hcond :
        ((els.arrowsPrev.isNone || els.arrowsNext.isNone) && cfg.options.arrows.truthy) = true
    · rw [if_pos hcond] at hm
      obtain ⟨p1, d1, hc1⟩ : ∃ p1 d1, createArrow true cfg d = (p1, d1) := ⟨_, _, rfl⟩
      obtain ⟨p2, d2, hc2⟩ : ∃ p2 d2, createArrow false cfg d1 = (p2, d2) := ⟨_, _, rfl⟩
      rw [hc1] at hm
      dsimp only at hm
      rw [hc2] at hm
      dsimp only at hm
      cases happ : appendArrows cfg els p1 p2 d2 with
      | error s =>
        rw [happ] at hm
        exact absurd hm (by simp)
      | ok d3 =>
        rw [happ] at hm
        simp only [Except.ok.injEq, Prod.mk.injEq] at hm
        obtain ⟨hst, _⟩ := hm
        rw [← hst]
        exact ⟨rfl, rfl⟩
    · rw [if_neg hcond] at hm
      simp only [Except.ok.injEq, Prod.mk.injEq] at hm
      obtain ⟨hst, _⟩ := hm
      rw [← hst] at hb
      simp only [Bool.and_eq_true] at hb
      rw [← hst]
      exact hb
  · intro name cfg ctrl st d p q np nq hp hq hgp hgq
    refine ⟨(setDisabled (setDisabled d p
        (decide (ctrl.prevIndex < 0) || !decide (cfg.length > cfg.options.perPage))) q
        (decide (ctrl.nextIndex < 0) || !decide (cfg.length > cfg.options.perPage)),
      { event := name ++ ":updated", arg1 := st.prev, arg2 := st.next,
        idx1 := ctrl.prevIndex, idx2 := ctrl.nextIndex }), ?_⟩
    unfold updateDisabled
    rw [hp, hq]
    dsimp only
    rw [hgp, hgq]

/-- The attribute-stripping prologue of `destroy` is idempotent. -/
theorem removeDisabled_pair_idem (a b : Option Nat) (d : Dom) :
    removeAttribute b (.single "disabled") (removeAttribute a (.single "disabled")
      (removeAttribute b (.single "disabled") (removeAttribute a (.single "disabled") d))) =
    removeAttribute b (.single "disabled") (removeAttribute a (.single "disabled") d) := by
  have hidem : ∀ (e : Nat) (x : Dom),
      (x.modify e (fun n => n.removeAttr "disabled")).modify e (fun n => n.removeAttr "disabled") =
        x.modify e (fun n => n.removeAttr "disabled") := by
    intro e x
    rw [Dom.modify_modify_self]
    exact Dom.modify_congr _ _ _ _ (fun n => removeAttr_idem n "disabled")
  cases a with
  | none =>
    cases b with
    | none => rfl
    | some eb =>
      simp only [removeAttribute_single]
      exact hidem eb d
  | some ea =>
    cases b with
    | none =>
      simp only [removeAttribute_single]
      exact hidem ea d
    | some eb =>
      simp only [removeAttribute_single]
      by_cases hab : ea = eb
      · subst hab
        rw [hidem, hidem]
      · rw [Dom.modify_comm _ _ _ _ _ hab, hidem,
            Dom.modify_comm _ _ _ _ _ (Ne.symm hab), hidem]

/-- C7, counterexample: after a fabricated mount, the first `destroy`
detaches the wrapper; a second `destroy` runs `remove( prev.parentElement )`
on the now-detached wrapper, whose `parentElement` is null, and
`null.removeChild` throws — `destroy` is not idempotent in the fabricated
case. -/
theorem c7_counterexample :
    ((mount fxCfg fxElsNone fxDomRootChild) >>= fun r =>
      destroy r.1 r.2 >>= fun d1 => destroy r.1 d1) =
      .error "TypeError: null parentElement" := rfl

/-- C7 (amended): `destroy` is idempotent when the arrows were discovered in
markup (`created` false) — the second call returns the same document without
error; but when the arrows were fabricated (`created` true) and the wrapper
is already detached (as the first `destroy` leaves it), a second `destroy`
throws. -/
theorem c7_destroy_idempotent_amended :
    (∀ (st : ArrowsState) (d : Dom), st.created = false →
      destroy st d = .ok (removeAttribute st.next (.single "disabled")
        (removeAttribute st.prev (.single "disabled") d)) ∧
      destroy st (removeAttribute st.next (.single "disabled")
          (removeAttribute st.prev (.single "disabled") d)) =
        .ok (removeAttribute st.next (.single "disabled")
          (removeAttribute st.prev (.single "disabled") d))) ∧
    (∀ (st : ArrowsState) (d : Dom) (p w : Nat) (n wn : Node),
      st.created = true → st.prev = some p →
      d.get p = some n → n.parent = some w →
      d.get w = some wn → wn.parent = none →
      destroy st d = .error "TypeError: null parentElement") := by
  constructor
  · intro st d hc
    constructor
    · simp [destroy, hc]
    · simp only [destroy, hc, Bool.false_eq_true, if_false]
      rw [removeDisabled_pair_idem]
  · intro st d p w n wn hc hp hgp hpar hgw hwp
    have hP : ∀ j : Nat,
        ((removeAttribute st.next (.single "disabled")
          (removeAttribute (some p) (.single "disabled") d)).get j).map Node.parent =
          (d.get j).map Node.parent := by
      intro j
      rw [parent_after_removeDisabled, parent_after_removeDisabled]
    have h1 : ((removeAttribute st.next (.single "disabled")
        (removeAttribute (some p) (.single "disabled") d)).get p).map Node.parent =
        some (some w) := by
      rw [hP p, hgp]
      simp [hpar]
    obtain ⟨n2, hg2, hp2⟩ : ∃ n2 : Node,
        (removeAttribute st.next (.single "disabled")
          (removeAttribute (some p) (.single "disabled") d)).get p = some n2 ∧
        n2.parent = some w := by
      cases hx : (removeAttribute st.next (.single "disabled")
          (removeAttribute (some p) (.single "disabled") d)).get p with
      | none => rw [hx] at h1; exact absurd h1 (by simp)
      | some m =>
        rw [hx] at h1
        exact ⟨m, rfl, by simpa using h1⟩
    have h2 : ((removeAttribute st.next (.single "disabled")
        (removeAttribute (some p) (.single "disabled") d)).get w).map Node.parent =
        some none := by
      rw [hP w, hgw]
      simp [hwp]
    obtain ⟨wn2, hgw2, hwp2⟩ : ∃ wn2 : Node,
        (removeAttribute st.next (.single "disabled")
          (removeAttribute (some p) (.single "disabled") d)).get w = some wn2 ∧
        wn2.parent = none := by
      cases hx : (removeAttribute st.next (.single "disabled")
          (removeAttribute (some p) (.single "disabled") d)).get w with
      | none => rw [hx] at h2; exact absurd h2 (by simp)
      | some m =>
        rw [hx] at h2
        exact ⟨m, rfl, by simpa using h2⟩
    unfold destroy
    rw [hc, hp]
    dsimp only
    rw [hg2]
    dsimp only
    rw [hp2]
    show removeList [some w] _ = _
    simp [removeList, removeOne, hgw2, hwp2]

/-- C7, witness: the amended theorem's idempotent case applied to the
discovered-arrows fixture (`created` false). -/
theorem c7_witness :
    fxStButtons.created = false ∧
    (destroy fxStButtons fxDomMarkup =
      .ok (removeAttribute fxStButtons.next (.single "disabled")
        (removeAttribute fxStButtons.prev (.single "disabled") fxDomMarkup)) ∧
      destroy fxStButtons (removeAttribute fxStButtons.next (.single "disabled")
          (removeAttribute fxStButtons.prev (.single "disabled") fxDomMarkup)) =
        .ok (removeAttribute fxStButtons.next (.single "disabled")
          (removeAttribute fxStButtons.prev (.single "disabled") fxDomMarkup))) :=
  ⟨rfl, c7_destroy_idempotent_amended.1 fxStButtons fxDomMarkup rfl⟩

/-- C10, witness: `mount` with pre-existing markup binds (both references
present), and `updateDisabled` succeeds on the two live buttons. -/
theorem c10_witness :
    (mount fxCfg fxElsMarkup fxDomMarkup =
      .ok (⟨some 1, some 2, false, true⟩, fxDomMarkup)) ∧
    ((⟨some 1, some 2, false, true⟩ : ArrowsState).prev.isSome = true ∧
      (⟨some 1, some 2, false, true⟩ : ArrowsState).next.isSome = true) ∧
    (∃ r, updateDisabled "arrows" fxCfg ⟨-1, 2⟩ fxStButtons fxDomButtons = .ok r) := by
  have h := c10_bind_guard_invariant
  refine ⟨rfl, ?_, ?_⟩
  · exact h.1 fxCfg fxElsMarkup fxDomMarkup ⟨some 1, some 2, false, true⟩ fxDomMarkup rfl rfl
  · exact h.2 "arrows" fxCfg ⟨-1, 2⟩ fxStButtons fxDomButtons 1 2
      { tag := "button" } { tag := "button" } rfl rfl rfl rfl

/-- C2, counterexample: on a root with no element children, `mount` with
arrows enabled reports `created = true` yet the wrapper (id 7) is never
inserted (it stays detached), and the subsequent `destroy` throws instead of
removing it — refuting the claimed fabricate-then-destroy round trip. -/
theorem c2_counterexample :
    (mount fxCfg fxElsNone fxDomRootEmpty).map (fun r => r.1.created) = .ok true ∧
    (mount fxCfg fxElsNone fxDomRootEmpty).map (fun r => attachedB r.2 7) = .ok false ∧
    ((mount fxCfg fxElsNone fxDomRootEmpty) >>= fun r => destroy r.1 r.2) =
      .error "TypeError: null parentElement" :=
  ⟨rfl, rfl, rfl⟩

/-- C2: amended mount/destroy lifecycle. (A) With arrows enabled, no
pre-existing markup, and — the needed extra condition — a first element child
in the insertion target, `mount` inserts exactly one wrapper holding both
fabricated buttons, sets `created`, and `destroy` then detaches that wrapper
(the buttons staying inside it), restoring the target's child list. (B) With
pre-existing markup, `mount` creates nothing and `destroy` leaves both
elements attached, only stripping their `disabled` attribute. -/
theorem c2_mount_destroy_amended :
    (∀ (cfg : SplideCfg) (els : ElementsC) (d0 : Dom) (tn fn : Node) (fe : Nat),
      els.arrowsPrev = none → els.arrowsNext = none →
      cfg.options.arrows.truthy = true →
      d0.get (appendTarget cfg els) = some tn →
      appendTarget cfg els < d0.fresh →
      (∀ c ∈ tn.children, c < d0.fresh) →
      firstElementChild d0 (appendTarget cfg els) = some fe →
      d0.get fe = some fn → fn.parent = some (appendTarget cfg els) →
      fe < d0.fresh →
      ∃ Dfin D2 : Dom,
        mount cfg els d0 =
          .ok (⟨some d0.fresh, some (d0.fresh + 3), true, true⟩, Dfin) ∧
        (Dfin.get (d0.fresh + 6)).map Node.children = some [d0.fresh, d0.fresh + 3] ∧
        (Dfin.get (d0.fresh + 6)).map Node.parent = some (some (appendTarget cfg els)) ∧
        (Dfin.get (appendTarget cfg els)).map Node.children =
          some (insertBeforeL tn.children fe (d0.fresh + 6)) ∧
        (insertBeforeL tn.children fe (d0.fresh + 6)).count (d0.fresh + 6) = 1 ∧
        destroy ⟨some d0.fresh, some (d0.fresh + 3), true, true⟩ Dfin = .ok D2 ∧
        (D2.get (d0.fresh + 6)).map Node.parent = some none ∧
        (D2.get (appendTarget cfg els)).map Node.children = some tn.children ∧
        (D2.get d0.fresh).map Node.parent = some (some (d0.fresh + 6)) ∧
        (D2.get (d0.fresh + 3)).map Node.parent = some (some (d0.fresh + 6))) ∧
    (∀ (cfg : SplideCfg) (els : ElementsC) (d0 : Dom) (p q : Nat),
      els.arrowsPrev = some p → els.arrowsNext = some q →
      mount cfg els d0 = .ok (⟨some p, some q, false, true⟩, d0) ∧
      destroy ⟨some p, some q, false, true⟩ d0 =
        .ok (removeAttribute (some q) (.single "disabled")
          (removeAttribute (some p) (.single "disabled") d0)) ∧
      (∀ j : Nat, ((removeAttribute (some q) (.single "disabled")
          (removeAttribute (some p) (.single "disabled") d0)).get j).map Node.parent =
        (d0.get j).map Node.parent) ∧
      (∀ j : Nat, j ≠ p → j ≠ q → (removeAttribute (some q) (.single "disabled")
          (removeAttribute (some p) (.single "disabled") d0)).get j = d0.get j) ∧
      (∀ np : Node, p ≠ q → d0.get p = some np →
        (removeAttribute (some q) (.single "disabled")
          (removeAttribute (some p) (.single "disabled") d0)).get p =
          some (np.removeAttr "disabled"))) := by
  constructor
  · intro cfg els d0 tn fn fe hpn hnn htr ht hbt hch hfe hfn hfp hbfe
    obtain ⟨Dfin, em, gw, gt, ga1, ga2, gj, gf⟩ :=
      mount_fab_insert_spec cfg els d0 tn fn fe hpn hnn htr ht hbt hch hfe hfn hfp hbfe
    obtain ⟨D2, ed, dw, dt, da1, da2, dj⟩ :=
      destroy_fab_spec Dfin d0.fresh (d0.fresh + 3) (d0.fresh + 6) (appendTarget cfg els)
        _ _ _ _ ga1 rfl ga2 rfl gw rfl gt
        (by omega) (by omega) (by omega) (by omega) (by omega) (by omega)
    refine ⟨Dfin, D2, em, ?_, ?_, ?_, ?_, ed, dw, ?_, da1, da2⟩
    · rw [gw]
      rfl
    · rw [gw]
      rfl
    · rw [gt]
      rfl
    · exact count_insertBeforeL tn.children fe (d0.fresh + 6)
        (fun hmem => by have := hch _ hmem; omega)
        (mem_of_firstElementChild d0 _ fe tn ht hfe)
    · rw [dt, Option.map_some']
      show some ((insertBeforeL tn.children fe (d0.fresh + 6)).filter
        (fun x => x != d0.fresh + 6)) = _
      rw [filter_insertBeforeL tn.children fe (d0.fresh + 6)
        (fun hmem => by have := hch _ hmem; omega)]
  · intro cfg els d0 p q hp hq
    have hc : ¬ (((some p : Option Nat).isNone || (some q : Option Nat).isNone) &&
        cfg.options.arrows.truthy) = true := by simp
    refine ⟨?_, rfl, ?_, ?_, ?_⟩
    · unfold mount
      dsimp only
      rw [hp, hq, if_neg hc]
      rfl
    · intro j
      exact (parent_after_removeDisabled (some q) _ j).trans
        (parent_after_removeDisabled (some p) d0 j)
    · intro j hjp hjq
      show ((d0.modify p (fun n => n.removeAttr "disabled")).modify q
        (fun n => n.removeAttr "disabled")).get j = d0.get j
      rw [Dom.get_modify_ne _ _ _ _ hjq, Dom.get_modify_ne _ _ _ _ hjp]
    · intro np hpq hnp
      show ((d0.modify p (fun n => n.removeAttr "disabled")).modify q
        (fun n => n.removeAttr "disabled")).get p = some (np.removeAttr "disabled")
      rw [Dom.get_modify_ne _ _ _ _ hpq, Dom.get_modify_self _ _ _ _ hnp]

/-- C2, witness: the amended theorem applied to a root with one element child
(fabricated path: buttons 2 and 5, wrapper 8) and to the pre-existing-markup
fixture (buttons 1 and 2, nothing created). -/
theorem c2_witness :
    (∃ Dfin D2 : Dom,
      mount fxCfg fxElsNone fxDomRootChild = .ok (⟨some 2, some 5, true, true⟩, Dfin) ∧
      (Dfin.get 8).map Node.children = some [2, 5] ∧
      (Dfin.get 8).map Node.parent = some (some 0) ∧
      (Dfin.get 0).map Node.children = some (insertBeforeL [1] 1 8) ∧
      (insertBeforeL [1] 1 8).count 8 = 1 ∧
      destroy ⟨some 2, some 5, true, true⟩ Dfin = .ok D2 ∧
      (D2.get 8).map Node.parent = some none ∧
      (D2.get 0).map Node.children = some [1] ∧
      (D2.get 2).map Node.parent = some (some 8) ∧
      (D2.get 5).map Node.parent = some (some 8)) ∧
    (mount fxCfg fxElsMarkup fxDomMarkup = .ok (⟨some 1, some 2, false, true⟩, fxDomMarkup) ∧
      destroy ⟨some 1, some 2, false, true⟩ fxDomMarkup =
        .ok (removeAttribute (some 2) (.single "disabled")
          (removeAttribute (some 1) (.single "disabled") fxDomMarkup)) ∧
      ((removeAttribute (some 2) (.single "disabled")
        (removeAttribute (some 1) (.single "disabled") fxDomMarkup)).get 1).map Node.parent =
        (fxDomMarkup.get 1).map Node.parent ∧
      (removeAttribute (some 2) (.single "disabled")
        (removeAttribute (some 1) (.single "disabled") fxDomMarkup)).get 0 =
        fxDomMarkup.get 0 ∧
      (removeAttribute (some 2) (.single "disabled")
        (removeAttribute (some 1) (.single "disabled") fxDomMarkup)).get 1 =
        some (Node.removeAttr
          { tag := "button", attrs := [("disabled", "")], parent := some 0 }
          "disabled")) := by
  constructor
  · exact c2_mount_destroy_amended.1 fxCfg fxElsNone fxDomRootChild
      { tag := "div", children := [1] } { tag := "section", parent := some 0 } 1
      rfl rfl rfl rfl (by decide) (by decide) rfl rfl rfl (by decide)
  · obtain ⟨hm, hd, hpar, hframe, hattr⟩ :=
      c2_mount_destroy_amended.2 fxCfg fxElsMarkup fxDomMarkup 1 2 rfl rfl
    exact ⟨hm, hd, hpar 1, hframe 0 (by decide) (by decide), hattr _ (by decide) rfl⟩

/-- C8, counterexample: on a root with no element children (and no slider),
mount's `before( wrapper, parent.firstElementChild )` no-ops: the wrapper
(id 7) ends up with no parent and the root's child list stays empty — the
wrapper is NOT inserted at the start of the root, refuting the claim's "for
every root element, including one with no existing element children". -/
theorem c8_counterexample :
    (mount fxCfg fxElsNone fxDomRootEmpty).map (fun r => (r.2.get 7).map Node.parent) =
      .ok (some none) ∧
    (mount fxCfg fxElsNone fxDomRootEmpty).map (fun r => (r.2.get 0).map Node.children) =
      .ok (some ([] : List Nat)) ∧
    appendTarget fxCfg fxElsNone = 0 :=
  ⟨rfl, rfl, rfl⟩

/-- C8: amended wrapper placement. The insertion parent is the slider
sub-region when the arrows option is the `'slider'` literal and the slider
exists, otherwise the root. When that parent has a first element child the
wrapper is inserted immediately before it (so at the head of the child list
when that child is first); when the parent has NO element child the wrapper
is not inserted at all — it stays detached and the parent is untouched. -/
theorem c8_wrapper_placement_amended :
    (∀ (cfg : SplideCfg) (els : ElementsC) (s : Nat),
      cfg.options.arrows = ArrowsOption.slider → els.slider = some s →
      appendTarget cfg els = s) ∧
    (∀ (cfg : SplideCfg) (els : ElementsC),
      els.slider = none → appendTarget cfg els = cfg.root) ∧
    (∀ (cfg : SplideCfg) (els : ElementsC) (b : Bool),
      cfg.options.arrows = ArrowsOption.bool b → appendTarget cfg els = cfg.root) ∧
    (∀ (cfg : SplideCfg) (els : ElementsC) (d0 : Dom) (tn fn : Node) (fe : Nat)
        (rest : List Nat),
      els.arrowsPrev = none → els.arrowsNext = none →
      cfg.options.arrows.truthy = true →
      d0.get (appendTarget cfg els) = some tn →
      appendTarget cfg els < d0.fresh →
      (∀ c ∈ tn.children, c < d0.fresh) →
      firstElementChild d0 (appendTarget cfg els) = some fe →
      d0.get fe = some fn → fn.parent = some (appendTarget cfg els) →
      fe < d0.fresh →
      tn.children = fe :: rest →
      ∃ Dfin : Dom,
        mount cfg els d0 =
          .ok (⟨some d0.fresh, some (d0.fresh + 3), true, true⟩, Dfin) ∧
        (Dfin.get (d0.fresh + 6)).map Node.parent = some (some (appendTarget cfg els)) ∧
        (Dfin.get (appendTarget cfg els)).map Node.children =
          some ((d0.fresh + 6) :: fe :: rest)) ∧
    (∀ (cfg : SplideCfg) (els : ElementsC) (d0 : Dom) (tn : Node),
      els.arrowsPrev = none → els.arrowsNext = none →
      cfg.options.arrows.truthy = true →
      d0.get (appendTarget cfg els) = some tn →
      appendTarget cfg els < d0.fresh →
      (∀ c ∈ tn.children, c < d0.fresh) →
      firstElementChild d0 (appendTarget cfg els) = none →
      ∃ Dfin : Dom,
        mount cfg els d0 =
          .ok (⟨some d0.fresh, some (d0.fresh + 3), true, true⟩, Dfin) ∧
        (Dfin.get (d0.fresh + 6)).map Node.parent = some none ∧
        Dfin.get (appendTarget cfg els) = some tn) := by
  refine ⟨?_, ?_, ?_, ?_, ?_⟩
  · intro cfg els s ha hs
    unfold appendTarget
    rw [ha, hs]
  · intro cfg els hs
    unfold appendTarget
    rw [hs]
    cases cfg.options.arrows <;> rfl
  · intro cfg els b hb
    unfold appendTarget
    rw [hb]
  · intro cfg els d0 tn fn fe rest hpn hnn htr ht hbt hch hfe hfn hfp hbfe hhead
    obtain ⟨Dfin, em, gw, gt, ga1, ga2, gj, gf⟩ :=
      mount_fab_insert_spec cfg els d0 tn fn fe hpn hnn htr ht hbt hch hfe hfn hfp hbfe
    refine ⟨Dfin, em, ?_, ?_⟩
    · rw [gw]
      rfl
    · rw [gt, Option.map_some']
      show some (insertBeforeL tn.children fe (d0.fresh + 6)) = _
      rw [hhead, insertBeforeL_head]
  · intro cfg els d0 tn hpn hnn htr ht hbt hch hfe
    obtain ⟨Dfin, em, gw, gt, gj, gf⟩ :=
      mount_fab_detached_spec cfg els d0 tn hpn hnn htr ht hbt hch hfe
    refine ⟨Dfin, em, ?_, gt⟩
    rw [gw]
    rfl

/-- C8, witness: slider/root selection on concrete configurations, insertion
at the head of a one-child root, and the detached outcome on a childless
root. -/
theorem c8_witness :
    appendTarget ⟨0, fxCfg.classes, ⟨ArrowsOption.slider, 1, 0, ""⟩, 3⟩
      ⟨none, none, some 9⟩ = 9 ∧
    appendTarget fxCfg fxElsNone = 0 ∧
    appendTarget fxCfg fxElsMarkup = 0 ∧
    (∃ Dfin : Dom,
      mount fxCfg fxElsNone fxDomRootChild = .ok (⟨some 2, some 5, true, true⟩, Dfin) ∧
      (Dfin.get 8).map Node.parent = some (some 0) ∧
      (Dfin.get 0).map Node.children = some [8, 1]) ∧
    (∃ Dfin : Dom,
      mount fxCfg fxElsNone fxDomRootEmpty = .ok (⟨some 1, some 4, true, true⟩, Dfin) ∧
      (Dfin.get 7).map Node.parent = some none ∧
      Dfin.get 0 = some { tag := "div" }) := by
  refine ⟨?_, ?_, ?_, ?_, ?_⟩
  · exact c8_wrapper_placement_amended.1 _ _ 9 rfl rfl
  · exact c8_wrapper_placement_amended.2.1 fxCfg fxElsNone rfl
  · exact c8_wrapper_placement_amended.2.2.1 fxCfg fxElsMarkup true rfl
  · exact c8_wrapper_placement_amended.2.2.2.1 fxCfg fxElsNone fxDomRootChild
      { tag := "div", children := [1] } { tag := "section", parent := some 0 } 1 []
      rfl rfl rfl rfl (by decide) (by decide) rfl rfl rfl (by decide) rfl
  · exact c8_wrapper_placement_amended.2.2.2.2 fxCfg fxElsNone fxDomRootEmpty
      { tag := "div" } rfl rfl rfl rfl (by decide) (by decide) rfl

end SplideModel
